import Mathlib

/-!
# Streaming JSON reader: the buffered window and the streaming parser

A shallow embedding of `stream.go` (package `jsonparser`).

* Go `int` is taken as the 64 bit two's complement integer of the usual
  targets: a value is an `Int`, and `+` / `-` wrap (`wrapInt`).
* A byte is a `Nat`; the program only copies and compares bytes.
* The array `buffer [buffersize]byte` is an array with exactly `buffersize`
  cells (`Storage`); every index or slice expression of the program is bounds
  checked as Go does, and a failed check (a run-time panic) is the result
  `none`.
* Offsets inside a slice are bounded by its length and cannot overflow; the
  wrapping operations are used where an operand comes from the caller.
* A slice of the array (`p.buffer[a:b]`) is the pair of its bounds, so that
  the field `Bytes` aliases the storage exactly as in the program.
* `io.Reader` is an interface: any type with a `Read` step (`IoReader`).
-/

set_option autoImplicit false

namespace Stream

/-! ## Machine integers and bytes -/

/-- Reduction of a mathematical integer to the 64 bit signed range. -/
def wrapInt (x : Int) : Int :=
  (x + 9223372036854775808) % 18446744073709551616 - 9223372036854775808

/-- Go `a + b` on `int`. -/
def addInt (a b : Int) : Int := wrapInt (a + b)

/-- Go `a - b` on `int`. -/
def subInt (a b : Int) : Int := wrapInt (a - b)

/-- The largest `int`. -/
def maxInt : Int := 9223372036854775807

abbrev Byte := Nat

/-- Source constant `buffersize int = 16 * 1024`. -/
def buffersize : Int := 16 * 1024

/-! ## Errors, value types, the byte source -/

/-- The `error` values the file names (`io.EOF` and the package's parse
errors), and any other error a reader or a callback may produce. -/
inductive Error where
  | EOF
  | MalformedJsonError
  | MalformedStringError
  | MalformedArrayError
  | MalformedObjectError
  | MalformedValueError
  | UnknownValueTypeError
  | other (code : Nat)
  deriving DecidableEq, Repr

/-- The `ValueType` constants the file names (see `callCallback`). -/
inductive ValueType where
  | NotExist
  | String
  | Number
  | Object
  | Array
  | Boolean
  | Null
  | Unknown
  deriving DecidableEq, Repr

/-- What one call `reader.Read(region)` does: the bytes it stored at the start
of the region, the count `n` and the error `err` it returned (`none` is `nil`). -/
structure ReadResult where
  data : List Byte
  n : Int
  err : Option Error
  deriving DecidableEq, Repr

/-- The interface `io.Reader`: one `Read` on a region of the given length gives
a result and the reader's next state. -/
class IoReader (ρ : Type) where
  Read : ρ → Nat → ReadResult × ρ

/-- A reader that replays a fixed list of results and then reports `io.EOF`. -/
structure ScriptReader where
  script : List ReadResult
  deriving DecidableEq, Repr

instance : IoReader ScriptReader where
  Read r _ :=
    match r.script with
    | [] => (⟨[], 0, some Error.EOF⟩, r)
    | x :: rest => (x, ⟨rest⟩)

/-! ## The buffered reader -/

/-- The array type `[buffersize]byte`. -/
structure Storage where
  cells : Array Byte
  size_eq : cells.size = 16384

/-- Read of `buffer[i]` for an index in range. -/
def Storage.get (b : Storage) (i : Nat) : Byte := b.cells.getD i 0

/-- The store `buffer[i] = v` for an index in range. -/
def Storage.set (b : Storage) (i : Nat) (v : Byte) : Storage :=
  ⟨b.cells.setD i v, by simp [b.size_eq]⟩

/-- The zero value of the array. -/
def Storage.zero : Storage := ⟨Array.mkArray 16384 0, by simp⟩

/-- A slice `buffer[lo:hi]` of the storage array. -/
structure Slice where
  lo : Nat
  hi : Nat
  deriving DecidableEq, Repr

/-- The slice expression `p.buffer[a:b]`: Go panics unless
`0 <= a <= b <= buffersize`. -/
def sliceOf (a b : Int) : Option Slice :=
  if 0 ≤ a ∧ a ≤ b ∧ b ≤ buffersize then some ⟨a.toNat, b.toNat⟩ else none

/-- The bytes a slice shows, read off the storage. -/
def Slice.bytes (buf : Storage) (s : Slice) : List Byte :=
  (List.range (s.hi - s.lo)).map (fun i => buf.get (s.lo + i))

/-- Source type `BufferedReader`. -/
structure BufferedReader (ρ : Type) where
  Bytes : Slice
  IsEOF : Bool
  reader : ρ
  buffer : Storage
  offset : Int
  level : Int

variable {ρ : Type}

/-- The contents of the exposed window `p.Bytes`. -/
def BufferedReader.window (p : BufferedReader ρ) : List Byte :=
  p.Bytes.bytes p.buffer

/-- The contents of `buffer[a:b]` for natural bounds. -/
def BufferedReader.region (p : BufferedReader ρ) (a b : Nat) : List Byte :=
  Slice.bytes p.buffer ⟨a, b⟩

/-- Source: `ApplyReader`. -/
def ApplyReader (p : BufferedReader ρ) (reader : ρ) : BufferedReader ρ :=
  { p with reader := reader, offset := 0, level := 0, IsEOF := false, Bytes := ⟨0, 0⟩ }

/-- Source: `Clear`. -/
def Clear (p : BufferedReader ρ) : BufferedReader ρ :=
  { p with offset := 0, level := 0, Bytes := ⟨0, 0⟩ }

/-- Stores of the bytes of a list at the indices `i`, `i + 1`, ... -/
def storeFrom (buf : Storage) (i : Nat) : List Byte → Storage
  | [] => buf
  | v :: rest => storeFrom (buf.set i v) (i + 1) rest

/-- The effect of the reader's stores on the storage: the region starts at
index `start` and has `len` bytes; stores past the region are impossible. -/
def store (buf : Storage) (start len : Nat) (d : List Byte) : Storage :=
  storeFrom buf start (d.take len)

/-- Source: `Read`. The result is `none` on a panic, else the returned error
and the state. -/
def Read [IoReader ρ] (p : BufferedReader ρ) : Option (Option Error × BufferedReader ρ) :=
  -- n, err := p.reader.Read(p.buffer[p.level:])
  if 0 ≤ p.level ∧ p.level ≤ buffersize then
    let len := (buffersize - p.level).toNat
    let r := IoReader.Read p.reader len
    let p1 := { p with reader := r.2, buffer := store p.buffer p.level.toNat len r.1.data }
    if r.1.err ≠ some Error.EOF ∧ r.1.err ≠ none then
      some (r.1.err, p1)
    else
      let level := addInt p1.level r.1.n
      match sliceOf 0 level with
      | none => none
      | some s =>
        some (none, { p1 with IsEOF := decide (r.1.err = some Error.EOF), level := level, Bytes := s })
  else none

/-- Source: `SkipBytes`. -/
def SkipBytes [IoReader ρ] (p : BufferedReader ρ) (n : Int) :
    Option (Option Error × BufferedReader ρ) :=
  if addInt p.offset n ≥ p.level then
    let p1 := Clear p
    if p1.IsEOF then some (none, p1) else Read p1
  else
    let off := addInt p.offset n
    match sliceOf off p.level with
    | none => none
    | some s => some (none, { p with offset := off, Bytes := s })

/-- The copy loop of `TrimPrefix`:
`for n := start; n < buffersize; n++ { buffer[i] = buffer[n]; i++ }`,
with `fuel` bounding the number of iterations still to run. -/
def copyLoop : Nat → Storage → Int → Int → Option Storage
  | 0, buf, _, _ => some buf
  | fuel + 1, buf, i, n =>
    if n < buffersize then
      if 0 ≤ n ∧ 0 ≤ i ∧ i < buffersize then
        copyLoop fuel (buf.set i.toNat (buf.get n.toNat)) (addInt i 1) (addInt n 1)
      else none
    else some buf

/-- Source: `TrimPrefix`. The loop runs `buffersize - start` times when it
starts at `start >= 0` and panics in its first iteration when `start < 0`. -/
def TrimPrefix (p : BufferedReader ρ) (offset : Int) : Option (BufferedReader ρ) :=
  if addInt offset p.offset ≥ p.level then some (Clear p)
  else
    let start := addInt p.offset offset
    match copyLoop (buffersize - start).toNat p.buffer 0 start with
    | none => none
    | some buf =>
      let level := subInt p.level offset
      match sliceOf 0 level with
      | none => none
      | some s => some { p with buffer := buf, offset := 0, level := level, Bytes := s }

/-- Spec invariant `0 <= offset <= level <= buffersize`. -/
def Inv (p : BufferedReader ρ) : Prop :=
  0 ≤ p.offset ∧ p.offset ≤ p.level ∧ p.level ≤ buffersize

/-- The exposed window is `buffer[offset:level]`. -/
def WindowOK (p : BufferedReader ρ) : Prop :=
  sliceOf p.offset p.level = some p.Bytes

instance (p : BufferedReader ρ) : Decidable (Inv p) := by
  unfold Inv; infer_instance

instance (p : BufferedReader ρ) : Decidable (WindowOK p) := by
  unfold WindowOK; infer_instance

/-! ## The scanners

`stringEnd`, `tokenEnd` and `blockEnd` are called by `getTypeStream` but are
not defined in `stream.go`; so are the literals and the declaration of
`ValueType`. -/

/-- Modelled from the spec: `string_end(window_after_opening_quote)`, which
scans for an unescaped closing quote, a backslash escaping exactly the next
byte; the result is the relative end offset (exclusive, so one past the closing
quote), or `-1` for "need more input", also for a lone trailing backslash.
`i` is the index of the head of the list in the window. -/
def stringEndFrom : List Byte → Nat → Int
  | [], _ => -1
  | c :: rest, i =>
    if c = 34 then (i : Int) + 1
    else if c = 92 then
      match rest with
      | [] => -1
      | _ :: rest2 => stringEndFrom rest2 (i + 2)
    else stringEndFrom rest (i + 1)

/-- Modelled from the spec: `string_end`, started at the head of the window
(the Go function also returns a flag the caller ignores). -/
def stringEnd (w : List Byte) : Int := stringEndFrom w 0

/-- Modelled from the spec: the bytes `token_end` scans over, "alphanumeric,
`.`, `+`, `-`, or `e`/`E`". -/
def isTokenByte (c : Byte) : Bool :=
  (48 ≤ c && c ≤ 57) || (97 ≤ c && c ≤ 122) || (65 ≤ c && c ≤ 90) ||
    c == 46 || c == 43 || c == 45

/-- Modelled from the spec: `token_end` from index `i` on. -/
def tokenEndFrom : List Byte → Nat → Int
  | [], _ => -1
  | c :: rest, i => if isTokenByte c then tokenEndFrom rest (i + 1) else (i : Int)

/-- Modelled from the spec: `token_end(window)`, the index of the first byte
outside the token set, or `-1` ("need more input") when the window ends first. -/
def tokenEnd (w : List Byte) : Int := tokenEndFrom w 0

/-- Modelled from the spec: the scan of `block_end` over the bytes that follow
the opening bracket, with the depth counter `depth` and the index `i` of the
head of the list; a quote starts a nested `string_end`. `fuel` bounds the number
of steps; each step consumes at least one byte. -/
def blockEndFrom (openSym closeSym : Byte) : Nat → List Byte → Nat → Nat → Int
  | 0, _, _, _ => -1
  | _ + 1, [], _, _ => -1
  | fuel + 1, c :: rest, i, depth =>
    if c = 34 then
      let se := stringEnd rest
      if se = -1 then -1
      else blockEndFrom openSym closeSym fuel (rest.drop se.toNat) (i + 1 + se.toNat) depth
    else if c = openSym then blockEndFrom openSym closeSym fuel rest (i + 1) (depth + 1)
    else if c = closeSym then
      if depth - 1 = 0 then (i : Int) + 1
      else blockEndFrom openSym closeSym fuel rest (i + 1) (depth - 1)
    else blockEndFrom openSym closeSym fuel rest (i + 1) depth

/-- Modelled from the spec: `block_end(window, open, close)`; the window starts
at the opening bracket, the depth counter starts at 1 for the byte after it,
and the result is the relative end offset (one past the bracket that brings the
depth to 0) or `-1` ("need more input"). -/
def blockEnd (w : List Byte) (openSym closeSym : Byte) : Int :=
  blockEndFrom openSym closeSym w.length (w.drop 1) 1 1

/-- Modelled from the spec: the literal `true`. -/
def trueLiteral : List Byte := [116, 114, 117, 101]

/-- Modelled from the spec: the literal `false`. -/
def falseLiteral : List Byte := [102, 97, 108, 115, 101]

/-- Modelled from the spec: the literal `null`. -/
def nullLiteral : List Byte := [110, 117, 108, 108]

/-- Modelled from the spec: the zero value of `ValueType` (`var dataType
ValueType`), whose declaration is not in the file; the spec's type set has no
name for it, `callCallback` lists `NotExist`. -/
def zeroValueType : ValueType := ValueType.NotExist

/-! ## The streaming parser -/

/-- The loop of `skipWitespaces` over the window: it returns `nil` at the first
byte that is no whitespace, and `nil` after the last byte. -/
def skipWitespacesLoop : List Byte → Option Error
  | [] => none
  | c :: rest =>
    if c = 32 ∨ c = 10 ∨ c = 13 ∨ c = 9 then skipWitespacesLoop rest else none

/-- Source: `skipWitespaces`; it returns an error only and stores nothing. -/
def skipWitespaces (data : BufferedReader ρ) : Option Error :=
  skipWitespacesLoop data.window

/-- The four values of a `return` statement in the body of `getTypeStream`. -/
structure Classified where
  value : Option (List Byte)
  dataType : ValueType
  endOffset : Int
  err : Option Error
  deriving DecidableEq, Repr

/-- Go `data[a:b]` on the window, for bounds inside it. -/
def subslice (w : List Byte) (a b : Int) : List Byte :=
  (w.take b.toNat).drop a.toNat

/-- The body of `getTypeStream`, on the window `w` that `data` exposes.
`offset` is an identifier the body uses and the file does not declare; it is a
parameter here. `data[offset]` panics outside the window (`none`). -/
def getTypeStreamBody (offset : Int) (w : List Byte) : Option Classified :=
  if 0 ≤ offset ∧ offset < w.length then
    let c := w.getD offset.toNat 0
    if c = 34 then
      let idx := stringEnd (w.drop (offset + 1).toNat)
      if idx ≠ -1 then
        let endOffset := offset + (idx + 1)
        some ⟨some (subslice w offset endOffset), ValueType.String, endOffset, none⟩
      else some ⟨none, ValueType.String, offset, some Error.MalformedStringError⟩
    else if c = 91 then
      let endOffset := blockEnd (w.drop offset.toNat) 91 93
      if endOffset = -1 then some ⟨none, ValueType.Array, offset, some Error.MalformedArrayError⟩
      else
        let endOffset := endOffset + offset
        some ⟨some (subslice w offset endOffset), ValueType.Array, endOffset, none⟩
    else if c = 123 then
      let endOffset := blockEnd (w.drop offset.toNat) 123 125
      if endOffset = -1 then some ⟨none, ValueType.Object, offset, some Error.MalformedObjectError⟩
      else
        let endOffset := endOffset + offset
        some ⟨some (subslice w offset endOffset), ValueType.Object, endOffset, none⟩
    else
      let e := tokenEnd (w.drop offset.toNat)
      if e = -1 then some ⟨none, zeroValueType, offset, some Error.MalformedValueError⟩
      else
        let value := subslice w offset (offset + e)
        let unknown : Option Classified :=
          some ⟨none, ValueType.Unknown, offset, some Error.UnknownValueTypeError⟩
        let done (t : ValueType) : Option Classified :=
          some ⟨some (subslice w offset (offset + e)), t, offset + e, none⟩
        if c = 116 ∨ c = 102 then
          if value = trueLiteral ∨ value = falseLiteral then done ValueType.Boolean else unknown
        else if c = 117 ∨ c = 110 then
          if value = nullLiteral then done ValueType.Null else unknown
        else if (48 ≤ c ∧ c ≤ 57) ∨ c = 45 then done ValueType.Number
        else unknown
  else none

/-- Source: `getTypeStream`, declared to return `(ValueType, error)`: the type
and the error of the body's result. -/
def getTypeStream (offset : Int) (data : BufferedReader ρ) : Option (ValueType × Option Error) :=
  (getTypeStreamBody offset data.window).map (fun r => (r.dataType, r.err))

/-- Source type `StreamingParser`; the callback `HandleDataTypeRaw` gets the
buffer and the type, and returns an error and the buffer as it left it. -/
structure StreamingParser (ρ : Type) where
  Callback : ValueType → BufferedReader ρ → Option Error × BufferedReader ρ

/-- The outcome of `Parse`: the returned error, the buffer afterwards, and the
types `Parse` called the callback with, in order. -/
structure ParseResult (ρ : Type) where
  err : Option Error
  data : BufferedReader ρ
  calls : List ValueType

/-- Source: `Parse`; `none` is a panic. -/
def Parse (p : StreamingParser ρ) (offset : Int) (data : BufferedReader ρ) :
    Option (ParseResult ρ) :=
  match skipWitespaces data with
  | some e =>
    if e = Error.EOF then some ⟨some Error.MalformedJsonError, data, []⟩
    else some ⟨some e, data, []⟩
  | none =>
    match getTypeStream offset data with
    | none => none
    | some (_, some e) => some ⟨some e, data, []⟩
    | some (dataType, none) =>
      let r := p.Callback dataType data
      some ⟨r.1, r.2, [dataType]⟩

/-! ## States and parsers used as concrete inputs -/

/-- The zero storage with `abc` stored at its start. -/
def abcStorage : Storage := storeFrom Storage.zero 0 [97, 98, 99]

/-- Offset 1, level 3 over storage `abc`: the state after `ApplyReader`, a `Read`
that delivered `abc`, and `SkipBytes(1)`; the next read will deliver `d`. -/
def trimState : BufferedReader ScriptReader :=
  ⟨⟨1, 3⟩, false, ⟨[⟨[100], 1, none⟩]⟩, abcStorage, 1, 3⟩

/-- Offset 1, level 2 over storage `abc`, source not exhausted; the reader's
script is empty. -/
def midState : BufferedReader ScriptReader :=
  ⟨⟨1, 2⟩, false, ⟨[]⟩, abcStorage, 1, 2⟩

/-- Offset 1, level 2 over storage `abc`, source exhausted. -/
def eofState : BufferedReader ScriptReader :=
  ⟨⟨1, 2⟩, true, ⟨[]⟩, abcStorage, 1, 2⟩

/-- Source: `NewReaderBuffered`, the zero value of `BufferedReader`; the nil
reader of the zero value is a parameter. -/
def NewReaderBuffered (nilReader : ρ) : BufferedReader ρ :=
  ⟨⟨0, 0⟩, false, nilReader, Storage.zero, 0, 0⟩

/-- The state in which the bytes `w` are buffered at offset 0: the one
`ApplyReader` and a first `Read` that delivers `w` produce. -/
def bufferedState (w : List Byte) (eof : Bool) (r : ScriptReader) : BufferedReader ScriptReader :=
  ⟨⟨0, w.length⟩, eof, r, store Storage.zero 0 16384 w, 0, w.length⟩

/-- A parser whose callback returns nil and leaves the buffer alone. -/
def okParser : StreamingParser ScriptReader := ⟨fun _ d => (none, d)⟩

/-- The text `"a"` (quote, `a`, quote). -/
def quotedA : List Byte := [34, 97, 34]

/-- A parser whose callback fails with an error of its own. -/
def failParser : StreamingParser ScriptReader := ⟨fun _ d => (some (Error.other 7), d)⟩

/-- Offset 1, level 3 over storage `abc`; the next read stores `x` and then
fails with an error of the source. -/
def failingSourceState : BufferedReader ScriptReader :=
  ⟨⟨1, 3⟩, false, ⟨[⟨[120], 0, some (Error.other 5)⟩]⟩, abcStorage, 1, 3⟩

/-! ## Well-formed input, for the statements about the scanners -/

/-- The bytes between the quotes of a string literal: plain bytes (neither a
quote nor a backslash) and escapes (a backslash and the byte it escapes), so
that every quote in it is preceded by an escaping backslash. -/
inductive StringBody : List Byte → Prop
  | nil : StringBody []
  | plain (c : Byte) (rest : List Byte) :
      c ≠ 34 → c ≠ 92 → StringBody rest → StringBody (c :: rest)
  | escape (c : Byte) (rest : List Byte) : StringBody rest → StringBody (92 :: c :: rest)

/-- The bytes between an opening bracket and the bracket that closes it, for
the bracket pair `o`, `c`: bytes that are no quote and no bracket of the pair,
whole string literals, and nested blocks of the same pair, in any order. -/
inductive Balanced (o c : Byte) : List Byte → Prop
  | nil : Balanced o c []
  | plain (x : Byte) (l : List Byte) :
      x ≠ 34 → x ≠ o → x ≠ c → Balanced o c l → Balanced o c (x :: l)
  | str (b l : List Byte) : StringBody b → Balanced o c l → Balanced o c (34 :: b ++ 34 :: l)
  | nest (a l : List Byte) : Balanced o c a → Balanced o c l → Balanced o c (o :: a ++ c :: l)

/-- The list closes `d` open brackets of the pair `o`, `c`: it is `d` times
balanced bytes and a closing bracket, followed by anything. -/
inductive Closes (o c : Byte) : Nat → List Byte → Prop
  | done (l : List Byte) : Closes o c 0 l
  | level (d : Nat) (a l : List Byte) :
      Balanced o c a → Closes o c d l → Closes o c (d + 1) (a ++ c :: l)

/-- A run of JSON whitespace: space, tab, line feed, carriage return. -/
def IsWs (l : List Byte) : Prop := ∀ b : Nat, b ∈ l → b = 32 ∨ b = 9 ∨ b = 10 ∨ b = 13

/-- The bytes of a number: a digit or `-`, then digits, `.`, `+`, `-`, `e`,
`E` in any order. Every JSON number is written so; the classifier checks no
more than this. -/
def IsNumber (l : List Byte) : Prop :=
  ∃ (c : Nat) (tl : List Byte), l = c :: tl ∧ ((48 ≤ c ∧ c ≤ 57) ∨ c = 45) ∧
    ∀ b : Nat, b ∈ tl → (48 ≤ b ∧ b ≤ 57) ∨ b = 46 ∨ b = 43 ∨ b = 45 ∨ b = 101 ∨ b = 69

/-- What a byte sequence of the JSON grammar stands for: a value, the elements
between the brackets of an array, or the members between the braces of an
object. -/
inductive JsonKind where
  | value
  | elements
  | members

/-- The JSON grammar (RFC 8259) on bytes. Strings are a quote, a `StringBody`
and a quote, and numbers are `IsNumber`: both allow every JSON string and
number (and more, which the scanners do not tell apart). -/
inductive Json : JsonKind → List Byte → Prop
  | string (b : List Byte) : StringBody b → Json JsonKind.value (34 :: b ++ [34])
  | number (n : List Byte) : IsNumber n → Json JsonKind.value n
  | litTrue : Json JsonKind.value trueLiteral
  | litFalse : Json JsonKind.value falseLiteral
  | litNull : Json JsonKind.value nullLiteral
  | emptyArray (ws : List Byte) : IsWs ws → Json JsonKind.value (91 :: ws ++ [93])
  | array (es : List Byte) : Json JsonKind.elements es → Json JsonKind.value (91 :: es ++ [93])
  | emptyObject (ws : List Byte) : IsWs ws → Json JsonKind.value (123 :: ws ++ [125])
  | object (ms : List Byte) : Json JsonKind.members ms → Json JsonKind.value (123 :: ms ++ [125])
  | element (w1 v w2 : List Byte) :
      IsWs w1 → Json JsonKind.value v → IsWs w2 → Json JsonKind.elements (w1 ++ v ++ w2)
  | elementCons (w1 v w2 es : List Byte) :
      IsWs w1 → Json JsonKind.value v → IsWs w2 → Json JsonKind.elements es →
      Json JsonKind.elements (w1 ++ v ++ w2 ++ 44 :: es)
  | member (w1 k w2 w3 v w4 : List Byte) :
      IsWs w1 → StringBody k → IsWs w2 → IsWs w3 → Json JsonKind.value v → IsWs w4 →
      Json JsonKind.members (w1 ++ 34 :: k ++ 34 :: w2 ++ 58 :: w3 ++ v ++ w4)
  | memberCons (w1 k w2 w3 v w4 ms : List Byte) :
      IsWs w1 → StringBody k → IsWs w2 → IsWs w3 → Json JsonKind.value v → IsWs w4 →
      Json JsonKind.members ms →
      Json JsonKind.members (w1 ++ 34 :: k ++ 34 :: w2 ++ 58 :: w3 ++ v ++ w4 ++ 44 :: ms)

/-- The type of the value that starts with the byte `c`, for a well-formed
value. -/
def kindOfFirstByte (c : Byte) : ValueType :=
  if c = 34 then ValueType.String
  else if c = 91 then ValueType.Array
  else if c = 123 then ValueType.Object
  else if c = 116 ∨ c = 102 then ValueType.Boolean
  else if c = 110 then ValueType.Null
  else ValueType.Number

/-! # Theorems -/


/-! ## Machine arithmetic -/

theorem wrapInt_eq (x : Int) (h0 : -9223372036854775808 ≤ x) (h1 : x ≤ 9223372036854775807) :
    wrapInt x = x := by
  unfold wrapInt; omega

theorem addInt_eq (a b : Int) (h0 : -9223372036854775808 ≤ a + b)
    (h1 : a + b ≤ 9223372036854775807) : addInt a b = a + b :=
  wrapInt_eq _ h0 h1

theorem subInt_eq (a b : Int) (h0 : -9223372036854775808 ≤ a - b)
    (h1 : a - b ≤ 9223372036854775807) : subInt a b = a - b :=
  wrapInt_eq _ h0 h1

theorem buffersize_eq : buffersize = 16384 := by decide

/-! ## Storage -/

theorem Array.getD_setD_nat (a : Array Nat) (i j : Nat) (v : Nat) :
    (a.setD i v).getD j 0 = if j = i ∧ i < a.size then v else a.getD j 0 := by
  cases a with
  | mk l =>
    by_cases h2 : i < l.length
    · simp [Array.setD, h2, Array.set, List.getElem?_set]
      by_cases h : i = j
      · subst h; simp [h2]
      · have : ¬ (j = i) := fun e => h e.symm
        simp [h, this]
    · simp [Array.setD, h2]

theorem Storage.get_set (b : Storage) (i j : Nat) (v : Byte) :
    (b.set i v).get j = if j = i ∧ i < 16384 then v else b.get j := by
  simp only [Storage.get, Storage.set, Array.getD_setD_nat, b.size_eq]

theorem Storage.get_zero (i : Nat) : Storage.zero.get i = 0 := by
  simp only [Storage.get, Storage.zero, Array.getD]
  split
  · simp
  · rfl

theorem Storage.ext_get (a b : Storage) (h : ∀ i, i < 16384 → a.get i = b.get i) : a = b := by
  cases a with
  | mk ca ha =>
  cases b with
  | mk cb hb =>
    have hc : ca = cb := by
      apply Array.ext
      · rw [ha, hb]
      · intro i h1 h2
        have := h i (by omega)
        simp only [Storage.get, Array.getD, h1, h2, dite_true, Array.get_eq_getElem] at this
        exact this
    subst hc
    rfl

theorem storeFrom_get (l : List Byte) (buf : Storage) (i j : Nat) (h : i + l.length ≤ 16384) :
    (storeFrom buf i l).get j =
      if i ≤ j ∧ j < i + l.length then l.getD (j - i) 0 else buf.get j := by
  induction l generalizing buf i with
  | nil =>
    have h0 : ¬ (i ≤ j ∧ j < i + ([] : List Byte).length) := by simp
    rw [storeFrom, if_neg h0]
  | cons v rest ih =>
    simp only [List.length_cons] at h
    rw [storeFrom, ih _ _ (by omega), Storage.get_set]
    by_cases h1 : j = i
    · subst h1
      have : j < 16384 := by omega
      simp [this]
    · by_cases h2 : i + 1 ≤ j ∧ j < i + 1 + rest.length
      · have h3 : i ≤ j ∧ j < i + (rest.length + 1) := by omega
        have h4 : j - i = (j - (i + 1)) + 1 := by omega
        simp only [h2, h3, and_self, if_true, List.length_cons]
        rw [h4, List.getD_cons_succ]
      · have h3 : ¬ (i ≤ j ∧ j < i + (rest.length + 1)) := by omega
        simp [h1, h2, h3]

theorem store_get (buf : Storage) (start len : Nat) (d : List Byte) (j : Nat)
    (h : start + len ≤ 16384) :
    (store buf start len d).get j =
      if start ≤ j ∧ j < start + min d.length len then d.getD (j - start) 0 else buf.get j := by
  unfold store
  have hl : (d.take len).length = min d.length len := by simp [Nat.min_comm]
  rw [storeFrom_get _ _ _ _ (by rw [hl]; omega), hl]
  by_cases h1 : start ≤ j ∧ j < start + min d.length len
  · simp only [h1, and_self, if_true]
    have : j - start < len := by omega
    simp [List.getD_eq_getElem?_getD, List.getElem?_take, this]
  · simp [h1]

/-- The copy loop started at `n >= i` with the exact number of iterations left
moves `buf[n .. buffersize)` down to `buf[i ..]` and stores nothing else. -/
theorem copyLoop_spec (fuel : Nat) (buf : Storage) (i n : Nat) (hin : i ≤ n)
    (hf : n + fuel = 16384) :
    ∃ out, copyLoop fuel buf (i : Int) (n : Int) = some out ∧
      ∀ j, out.get j = if i ≤ j ∧ j < i + fuel then buf.get (j + (n - i)) else buf.get j := by
  induction fuel generalizing buf i n with
  | zero =>
    refine ⟨buf, rfl, fun j => ?_⟩
    have h0 : ¬ (i ≤ j ∧ j < i + 0) := by omega
    rw [if_neg h0]
  | succ k ih =>
    have hn : (n : Int) < buffersize := by rw [buffersize_eq]; omega
    have hc : 0 ≤ (n : Int) ∧ 0 ≤ (i : Int) ∧ (i : Int) < buffersize := by
      rw [buffersize_eq]; omega
    have hi1 : addInt (i : Int) 1 = ((i + 1 : Nat) : Int) := by
      rw [addInt_eq _ _ (by omega) (by omega)]; push_cast; rfl
    have hn1 : addInt (n : Int) 1 = ((n + 1 : Nat) : Int) := by
      rw [addInt_eq _ _ (by omega) (by omega)]; push_cast; rfl
    obtain ⟨out, ho, hg⟩ := ih (buf.set i (buf.get n)) (i + 1) (n + 1) (by omega) (by omega)
    refine ⟨out, ?_, ?_⟩
    · rw [copyLoop, if_pos hn, if_pos hc, hi1, hn1]
      simpa using ho
    · intro j
      rw [hg j]
      by_cases h1 : i + 1 ≤ j ∧ j < i + 1 + k
      · have h2 : i ≤ j ∧ j < i + (k + 1) := by omega
        have h3 : ¬ (j + (n - i) = i ∧ i < 16384) := by omega
        have h4 : j + (n + 1 - (i + 1)) = j + (n - i) := by omega
        rw [if_pos h1, if_pos h2, h4, Storage.get_set, if_neg h3]
      · by_cases h5 : j = i
        · subst h5
          have h2 : j ≤ j ∧ j < j + (k + 1) := by omega
          have h6 : j < 16384 := by omega
          have h7 : j + (n - j) = n := by omega
          simp only [h1, if_false, Storage.get_set, h6, and_self, if_true, h2, h7]
        · have h2 : ¬ (i ≤ j ∧ j < i + (k + 1)) := by omega
          simp only [h1, if_false, Storage.get_set, h5, false_and, h2]


/-! ## Slices -/

theorem Slice.bytes_length (buf : Storage) (s : Slice) : (s.bytes buf).length = s.hi - s.lo := by
  simp [Slice.bytes]

theorem Slice.bytes_getElem? (buf : Storage) (s : Slice) (k : Nat) :
    (s.bytes buf)[k]? = if k < s.hi - s.lo then some (buf.get (s.lo + k)) else none := by
  unfold Slice.bytes
  rw [List.getElem?_map]
  by_cases h : k < s.hi - s.lo
  · rw [List.getElem?_range h, if_pos h]; rfl
  · rw [List.getElem?_eq_none (by simpa using h), if_neg h]; rfl

/-- Two slices of equal length over storages that agree cell by cell show the
same bytes. -/
theorem Slice.bytes_eq_of_get (a b : Storage) (s t : Slice) (hlen : s.hi - s.lo = t.hi - t.lo)
    (h : ∀ k, k < s.hi - s.lo → a.get (s.lo + k) = b.get (t.lo + k)) :
    s.bytes a = t.bytes b := by
  apply List.ext_getElem?
  intro k
  rw [Slice.bytes_getElem?, Slice.bytes_getElem?, ← hlen]
  by_cases hk : k < s.hi - s.lo
  · rw [if_pos hk, if_pos hk, h k hk]
  · rw [if_neg hk, if_neg hk]

theorem Slice.bytes_drop (buf : Storage) (lo hi k : Nat) :
    (Slice.bytes buf ⟨lo, hi⟩).drop k = Slice.bytes buf ⟨lo + k, hi⟩ := by
  apply List.ext_getElem?
  intro j
  rw [List.getElem?_drop, Slice.bytes_getElem?, Slice.bytes_getElem?]
  by_cases hj : j < hi - (lo + k)
  · have : k + j < hi - lo := by omega
    simp only [hj, this, if_true]
    congr 2; omega
  · have : ¬ (k + j < hi - lo) := by omega
    simp only [hj, this, if_false]

theorem Slice.bytes_append (buf : Storage) (lo mid hi : Nat) (h1 : lo ≤ mid) (h2 : mid ≤ hi) :
    Slice.bytes buf ⟨lo, hi⟩ = Slice.bytes buf ⟨lo, mid⟩ ++ Slice.bytes buf ⟨mid, hi⟩ := by
  apply List.ext_getElem?
  intro j
  rw [Slice.bytes_getElem?]
  by_cases hj : j < mid - lo
  · rw [List.getElem?_append_left (by rw [Slice.bytes_length]; exact hj), Slice.bytes_getElem?]
    have : j < hi - lo := by omega
    simp only [hj, this, if_true]
  · rw [List.getElem?_append_right (by rw [Slice.bytes_length]; simpa using hj),
      Slice.bytes_getElem?, Slice.bytes_length]
    by_cases hj2 : j < hi - lo
    · have : j - (mid - lo) < hi - mid := by omega
      simp only [hj2, this, if_true]
      congr 2; omega
    · have : ¬ (j - (mid - lo) < hi - mid) := by omega
      simp only [hj2, this, if_false]

theorem sliceOf_eq (a b : Int) (h0 : 0 ≤ a) (h1 : a ≤ b) (h2 : b ≤ buffersize) :
    sliceOf a b = some ⟨a.toNat, b.toNat⟩ := by
  unfold sliceOf
  rw [if_pos ⟨h0, h1, h2⟩]

/-! ## The operations on states that satisfy their bounds checks -/

/-- The result of `TrimPrefix` when a remainder is left: the storage from
`offset + skip` on has moved to the front, `offset` is 0 and `level` has gone
down by `skip`. -/
theorem TrimPrefix_spec (p : BufferedReader ρ) (skip : Int) (hinv : Inv p) (h0 : 0 ≤ skip)
    (hlt : p.offset + skip < p.level) :
    ∃ buf, TrimPrefix p skip =
        some { p with buffer := buf, offset := 0, level := p.level - skip,
                      Bytes := ⟨0, (p.level - skip).toNat⟩ } ∧
      ∀ j, buf.get j =
        if j < 16384 - (p.offset + skip).toNat then p.buffer.get (j + (p.offset + skip).toNat)
        else p.buffer.get j := by
  obtain ⟨ho, hol, hl⟩ := hinv
  rw [buffersize_eq] at hl
  have hs : addInt skip p.offset = p.offset + skip := by
    rw [addInt_eq _ _ (by omega) (by omega)]; omega
  have hs2 : addInt p.offset skip = p.offset + skip := addInt_eq _ _ (by omega) (by omega)
  have hsub : subInt p.level skip = p.level - skip := subInt_eq _ _ (by omega) (by omega)
  obtain ⟨out, hout, hget⟩ := copyLoop_spec (16384 - (p.offset + skip).toNat) p.buffer 0
    (p.offset + skip).toNat (by omega) (by omega)
  have hstart : (((p.offset + skip).toNat : Nat) : Int) = p.offset + skip := by omega
  have hfuel : (buffersize - (p.offset + skip)).toNat = 16384 - (p.offset + skip).toNat := by
    rw [buffersize_eq]; omega
  refine ⟨out, ?_, ?_⟩
  · unfold TrimPrefix
    rw [hs, if_neg (by omega), hs2]
    simp only [hfuel]
    rw [hstart] at hout
    have hout2 : copyLoop (16384 - (p.offset + skip).toNat) p.buffer 0 (p.offset + skip) = some out := by
      simpa using hout
    rw [hout2, hsub]
    simp only [sliceOf_eq 0 (p.level - skip) (le_refl _) (by omega) (by rw [buffersize_eq]; omega)]
    rfl
  · intro j
    rw [hget j]
    simp

theorem Read_ok [IoReader ρ] (p : BufferedReader ρ) (h0 : 0 ≤ p.level) (h1 : p.level ≤ buffersize)
    (herr : (IoReader.Read p.reader (buffersize - p.level).toNat).1.err = none ∨
      (IoReader.Read p.reader (buffersize - p.level).toNat).1.err = some Error.EOF)
    (hn0 : 0 ≤ (IoReader.Read p.reader (buffersize - p.level).toNat).1.n)
    (hn1 : p.level + (IoReader.Read p.reader (buffersize - p.level).toNat).1.n ≤ buffersize) :
    Read p = some (none,
      { p with
        reader := (IoReader.Read p.reader (buffersize - p.level).toNat).2,
        buffer := store p.buffer p.level.toNat (buffersize - p.level).toNat
          (IoReader.Read p.reader (buffersize - p.level).toNat).1.data,
        IsEOF := decide ((IoReader.Read p.reader (buffersize - p.level).toNat).1.err
          = some Error.EOF),
        level := p.level + (IoReader.Read p.reader (buffersize - p.level).toNat).1.n,
        Bytes := ⟨0, (p.level + (IoReader.Read p.reader (buffersize - p.level).toNat).1.n).toNat⟩ }) := by
  have hb := buffersize_eq
  unfold Read
  rw [if_pos ⟨h0, h1⟩]
  have hne : ¬ ((IoReader.Read p.reader (buffersize - p.level).toNat).1.err ≠ some Error.EOF ∧
      (IoReader.Read p.reader (buffersize - p.level).toNat).1.err ≠ none) := by
    rcases herr with h | h <;> simp [h]
  simp only [hne, if_false]
  rw [addInt_eq _ _ (by omega) (by omega)]
  rw [sliceOf_eq 0 _ (le_refl _) (by omega) hn1]
  rfl

theorem Read_err [IoReader ρ] (p : BufferedReader ρ) (h0 : 0 ≤ p.level) (h1 : p.level ≤ buffersize)
    (e : Error) (herr : (IoReader.Read p.reader (buffersize - p.level).toNat).1.err = some e)
    (hne : e ≠ Error.EOF) :
    Read p = some (some e,
      { p with
        reader := (IoReader.Read p.reader (buffersize - p.level).toNat).2,
        buffer := store p.buffer p.level.toNat (buffersize - p.level).toNat
          (IoReader.Read p.reader (buffersize - p.level).toNat).1.data }) := by
  unfold Read
  rw [if_pos ⟨h0, h1⟩]
  have hc : (IoReader.Read p.reader (buffersize - p.level).toNat).1.err ≠ some Error.EOF ∧
      (IoReader.Read p.reader (buffersize - p.level).toNat).1.err ≠ none := by
    rw [herr]; simp [hne]
  dsimp only
  rw [if_pos hc, herr]

theorem abcStorage_get (j : Nat) :
    abcStorage.get j = if j = 0 then 97 else if j = 1 then 98 else if j = 2 then 99 else 0 := by
  unfold abcStorage
  rw [storeFrom_get _ _ _ _ (by decide)]
  by_cases h0 : j = 0
  · subst h0; rfl
  by_cases h1 : j = 1
  · subst h1; rfl
  by_cases h2 : j = 2
  · subst h2; rfl
  have : ¬ (0 ≤ j ∧ j < 0 + [97, 98, 99].length) := by simp; omega
  rw [if_neg this, Storage.get_zero]
  simp [h0, h1, h2]

/-- C1 (failing input). `TrimPrefix(1)` on a window `bc` at offset 1: the
remainder `c` moves to the front, but `level` only goes down by the argument,
so the window is `c` followed by a byte from beyond the old level; the `Read`
after it appends the delivered `d` behind that byte. -/
theorem TrimPrefix_window_tail_at_offset :
    Inv trimState ∧ WindowOK trimState ∧ trimState.window = [98, 99] ∧
    ∃ q, TrimPrefix trimState 1 = some q ∧ q.offset = 0 ∧ q.level = 2 ∧ q.window = [99, 0] ∧
      ∃ q2, Read q = some (none, q2) ∧ q2.window = [99, 0, 100] := by
  have hinv : Inv trimState := by decide
  obtain ⟨buf, htrim, hget⟩ := TrimPrefix_spec trimState 1 hinv (by decide) (by decide)
  refine ⟨hinv, by decide, ?_, _, htrim, rfl, rfl, ?_, ?_⟩
  · simp [BufferedReader.window, Slice.bytes, trimState, List.range, List.range.loop,
      abcStorage_get]
  · have h0 := hget 0
    have h1 := hget 1
    simp [trimState, abcStorage_get] at h0 h1
    simp [BufferedReader.window, Slice.bytes, trimState, List.range, List.range.loop, h0, h1]
  · refine ⟨_, Read_ok _ (show (0 : Int) ≤ 3 - 1 by decide)
      (show (3 - 1 : Int) ≤ buffersize by decide) (Or.inl rfl) (show (0 : Int) ≤ 1 by decide)
      (show (3 - 1 : Int) + 1 ≤ buffersize by decide), ?_⟩
    have h0 := hget 0
    have h1 := hget 1
    simp [trimState, abcStorage_get] at h0 h1
    have hs : ∀ j, (store buf 2 16382 [100]).get j
        = if 2 ≤ j ∧ j < 2 + min [100].length 16382 then [100].getD (j - 2) 0 else buf.get j :=
      fun j => store_get buf 2 16382 [100] j (by decide)
    have e0 := hs 0
    have e1 := hs 1
    have e2 := hs 2
    simp [h0, h1] at e0 e1 e2
    have hw : ∀ b : Storage, Slice.bytes b ⟨0, 3⟩ = [b.get 0, b.get 1, b.get 2] := fun b => by
      simp [Slice.bytes, List.range, List.range.loop]
    show Slice.bytes (store buf 2 16382 [100]) ⟨0, 3⟩ = [99, 0, 100]
    rw [hw, e0, e1, e2]

/-! ## The invariant `0 <= offset <= level <= buffersize` -/

/-- C2 (as stated, refuted). From a state with offset 1 and level 2,
`SkipBytes(n)` with the largest `int` as `n >= 0`: the sum `offset + n` wraps
to a negative number, the test `offset + n >= level` fails, and the slice
expression with the negative offset panics; no state that satisfies the
invariant results. -/
theorem SkipBytes_largest_n_breaks_invariant :
    Inv midState ∧ 0 ≤ maxInt ∧
      ¬ ∃ e q, SkipBytes midState maxInt = some (e, q) ∧ Inv q := by
  refine ⟨by decide, by decide, ?_⟩
  have h : SkipBytes midState maxInt = none := by rfl
  rw [h]
  rintro ⟨e, q, hq, _⟩
  exact Option.noConfusion hq

/-- C2 (amended). The invariant is preserved by `ApplyReader`, `Clear`,
`SkipBytes(n)` and `TrimPrefix(n)` for `n >= 0` whose sum with `offset` does
not exceed the largest `int`, and `Read`, when the source reports a count
between 0 and the length of the region; each operation returns. -/
theorem Inv_preserved [IoReader ρ] (p : BufferedReader ρ) (hinv : Inv p)
    (hsrc : ∀ len, 0 ≤ (IoReader.Read p.reader len).1.n ∧
      (IoReader.Read p.reader len).1.n ≤ len) :
    (∀ r, Inv (ApplyReader p r)) ∧ Inv (Clear p) ∧
    (∀ n, 0 ≤ n → p.offset + n ≤ maxInt → ∃ e q, SkipBytes p n = some (e, q) ∧ Inv q) ∧
    (∀ n, 0 ≤ n → p.offset + n ≤ maxInt → ∃ q, TrimPrefix p n = some q ∧ Inv q) ∧
    (∃ e q, Read p = some (e, q) ∧ Inv q) := by
  have hb := buffersize_eq
  have hread : ∀ q : BufferedReader ρ, Inv q → q.reader = p.reader →
      ∃ e q2, Read q = some (e, q2) ∧ Inv q2 := by
    intro q hq hqr
    obtain ⟨h0, h1, h2⟩ := hq
    have hs := hsrc (buffersize - q.level).toNat
    rw [← hqr] at hs
    rcases hres : (IoReader.Read q.reader (buffersize - q.level).toNat).1.err with _ | e
    · refine ⟨_, _, Read_ok q (by omega) h2 (Or.inl hres) hs.1 (by omega), ?_⟩
      refine ⟨h0, ?_, ?_⟩
      · show q.offset ≤ q.level + _; omega
      · show q.level + _ ≤ buffersize; omega
    · by_cases he : e = Error.EOF
      · subst he
        refine ⟨_, _, Read_ok q (by omega) h2 (Or.inr hres) hs.1 (by omega), ?_⟩
        refine ⟨h0, ?_, ?_⟩
        · show q.offset ≤ q.level + _; omega
        · show q.level + _ ≤ buffersize; omega
      · exact ⟨_, _, Read_err q (by omega) h2 e hres he, h0, h1, h2⟩
  have hclear : Inv (Clear p) := by
    refine ⟨le_refl _, le_refl _, ?_⟩
    show (0 : Int) ≤ buffersize
    omega
  obtain ⟨h0, h1, h2⟩ := hinv
  refine ⟨fun r => ?_, hclear, ?_, ?_, hread p ⟨h0, h1, h2⟩ rfl⟩
  · refine ⟨le_refl _, le_refl _, ?_⟩
    show (0 : Int) ≤ buffersize
    omega
  · intro n hn hmax
    unfold maxInt at hmax
    have hadd : addInt p.offset n = p.offset + n := addInt_eq _ _ (by omega) hmax
    unfold SkipBytes
    rw [hadd]
    by_cases hc : p.offset + n ≥ p.level
    · rw [if_pos hc]
      by_cases heof : (Clear p).IsEOF = true
      · simp only [heof, if_true]
        exact ⟨_, _, rfl, hclear⟩
      · simp only [heof]
        exact hread (Clear p) hclear rfl
    · rw [if_neg hc]
      simp only [sliceOf_eq (p.offset + n) p.level (by omega) (by omega) h2]
      exact ⟨_, _, rfl, by show 0 ≤ p.offset + n; omega, by show p.offset + n ≤ p.level; omega, h2⟩
  · intro n hn hmax
    unfold maxInt at hmax
    by_cases hc : p.offset + n ≥ p.level
    · refine ⟨Clear p, ?_, hclear⟩
      unfold TrimPrefix
      rw [addInt_eq _ _ (by omega) (by omega), if_pos (by omega)]
    · obtain ⟨buf, hq, _⟩ := TrimPrefix_spec p n ⟨h0, h1, h2⟩ hn (by omega)
      refine ⟨_, hq, le_refl _, ?_, ?_⟩
      · show (0 : Int) ≤ p.level - n; omega
      · show p.level - n ≤ buffersize; omega

/-- Witness for `Inv_preserved`: the state `midState`, whose reader reports 0
bytes at end of input, with `SkipBytes(5)` and `TrimPrefix(0)`. -/
theorem Inv_preserved_witness :
    Inv (ApplyReader midState ⟨[]⟩) ∧ Inv (Clear midState) ∧
    (∃ e q, SkipBytes midState 5 = some (e, q) ∧ Inv q) ∧
    (∃ q, TrimPrefix midState 0 = some q ∧ Inv q) ∧
    (∃ e q, Read midState = some (e, q) ∧ Inv q) :=
  have h := Inv_preserved midState (by decide)
    (fun len => ⟨show (0 : Int) ≤ 0 by decide, show (0 : Int) ≤ (len : Int) by omega⟩)
  ⟨h.1 _, h.2.1, h.2.2.1 5 (by decide) (by decide), h.2.2.2.1 0 (by decide) (by decide),
    h.2.2.2.2⟩

/-! ## The exposed window -/

/-- C3 (failing input). `Read` at offset 1, level 3 (window `bc`), the source
delivering `d`: the call succeeds and sets `Bytes` to `buffer[0:4]`, not
`buffer[1:4]`, so the window shows the consumed byte `a` again. -/
theorem Read_window_starts_at_zero :
    Inv trimState ∧ WindowOK trimState ∧ trimState.window = [98, 99] ∧
    ∃ q, Read trimState = some (none, q) ∧ q.offset = 1 ∧ q.level = 4 ∧
      q.Bytes = ⟨0, 4⟩ ∧ ¬ WindowOK q ∧ q.window = [97, 98, 99, 100] := by
  refine ⟨by decide, by decide, ?_, _, Read_ok trimState (by decide) (by decide) (Or.inl rfl)
    (by decide) (by decide), rfl, rfl, rfl, by decide, ?_⟩
  · simp [BufferedReader.window, Slice.bytes, trimState, List.range, List.range.loop,
      abcStorage_get]
  · have hs : ∀ j, (store abcStorage 3 16381 [100]).get j
        = if 3 ≤ j ∧ j < 3 + min [100].length 16381 then [100].getD (j - 3) 0
          else abcStorage.get j :=
      fun j => store_get abcStorage 3 16381 [100] j (by decide)
    have e0 := hs 0
    have e1 := hs 1
    have e2 := hs 2
    have e3 := hs 3
    simp [abcStorage_get] at e0 e1 e2 e3
    have hw : ∀ b : Storage, Slice.bytes b ⟨0, 4⟩ = [b.get 0, b.get 1, b.get 2, b.get 3] :=
      fun b => by simp [Slice.bytes, List.range, List.range.loop]
    show Slice.bytes (store abcStorage 3 16381 [100]) ⟨0, 4⟩ = [97, 98, 99, 100]
    rw [hw, e0, e1, e2, e3]

/-! ## `SkipBytes` -/

/-- C9. With `0 <= offset <= level <= buffersize`, `n >= 0` and
`offset + n < level`, `SkipBytes(n)` returns nil; the reader, `level`, `IsEOF`
and the storage are as before, `offset` has grown by `n`, and the window is
`buffer[offset+n:level]`, the old `buffer[offset:level]` without its first `n`
bytes (which is the old `Bytes` without them when `Bytes` was that slice). -/
theorem SkipBytes_within_window [IoReader ρ] (p : BufferedReader ρ) (n : Int) (hinv : Inv p)
    (hn : 0 ≤ n) (hlt : p.offset + n < p.level) :
    ∃ q, SkipBytes p n = some (none, q) ∧ q.reader = p.reader ∧ q.offset = p.offset + n ∧
      q.level = p.level ∧ q.IsEOF = p.IsEOF ∧ q.buffer = p.buffer ∧ WindowOK q ∧
      q.window = (p.region p.offset.toNat p.level.toNat).drop n.toNat ∧
      (WindowOK p → q.window = p.window.drop n.toNat) := by
  obtain ⟨h0, h1, h2⟩ := hinv
  have hb := buffersize_eq
  have hadd : addInt p.offset n = p.offset + n := addInt_eq _ _ (by omega) (by omega)
  have hsl := sliceOf_eq (p.offset + n) p.level (by omega) (by omega) h2
  have hdrop : Slice.bytes p.buffer ⟨(p.offset + n).toNat, p.level.toNat⟩ =
      (Slice.bytes p.buffer ⟨p.offset.toNat, p.level.toNat⟩).drop n.toNat := by
    rw [Slice.bytes_drop]
    congr 2
    omega
  refine ⟨{ p with offset := p.offset + n, Bytes := ⟨(p.offset + n).toNat, p.level.toNat⟩ },
    ?_, rfl, rfl, rfl, rfl, rfl, hsl, hdrop, ?_⟩
  · unfold SkipBytes
    rw [hadd, if_neg (by omega)]
    simp only [hsl]
  · intro hw
    have hp : p.Bytes = ⟨p.offset.toNat, p.level.toNat⟩ := by
      have := sliceOf_eq p.offset p.level h0 h1 h2
      unfold WindowOK at hw
      rw [this] at hw
      exact (Option.some.inj hw).symm
    show Slice.bytes p.buffer _ = (Slice.bytes p.buffer p.Bytes).drop n.toNat
    rw [hp]
    exact hdrop

/-- Witness for `SkipBytes_within_window`: `SkipBytes(1)` at offset 1, level 3. -/
theorem SkipBytes_within_window_witness :
    ∃ q, SkipBytes trimState 1 = some (none, q) ∧ q.reader = trimState.reader ∧
      q.offset = trimState.offset + 1 ∧ q.level = trimState.level ∧
      q.IsEOF = trimState.IsEOF ∧ q.buffer = trimState.buffer ∧ WindowOK q ∧
      q.window = (trimState.region trimState.offset.toNat trimState.level.toNat).drop
        (1 : Int).toNat ∧
      (WindowOK trimState → q.window = trimState.window.drop (1 : Int).toNat) :=
  SkipBytes_within_window trimState 1 (by decide) (by decide) (by decide)

/-- C10 (as stated, refuted). Offset 1, level 2, source exhausted, and the
largest `int` as `n`: `offset + n >= level`, yet the program's sum wraps to a
negative number, the window is not reset, and the call panics instead of
returning nil. -/
theorem SkipBytes_largest_n_is_not_reset :
    eofState.IsEOF = true ∧ eofState.offset + maxInt ≥ eofState.level ∧
      SkipBytes eofState maxInt = none :=
  ⟨rfl, by decide, rfl⟩

/-- C10 (amended). When the program's test `offset + n >= level` succeeds (the
sum taken in `int` arithmetic), `SkipBytes(n)` resets the window to empty and
then returns nil without a read if `IsEOF` is set, and otherwise is exactly
`Read` on the reset state, which reads the source once. -/
theorem SkipBytes_past_window [IoReader ρ] (p : BufferedReader ρ) (n : Int)
    (h : addInt p.offset n ≥ p.level) :
    SkipBytes p n = (if p.IsEOF then some (none, Clear p) else Read (Clear p)) ∧
    (Clear p).offset = 0 ∧ (Clear p).level = 0 ∧ (Clear p).window = [] ∧
    (Clear p).IsEOF = p.IsEOF ∧ (Clear p).reader = p.reader ∧ (Clear p).buffer = p.buffer ∧
    ∀ e q, Read (Clear p) = some (e, q) → q.reader = (IoReader.Read p.reader 16384).2 := by
  refine ⟨?_, rfl, rfl, rfl, rfl, rfl, rfl, ?_⟩
  · unfold SkipBytes
    rw [if_pos h]
    rfl
  · intro e q hq
    unfold Read at hq
    rw [if_pos ⟨le_refl (0 : Int), show (0 : Int) ≤ buffersize by decide⟩] at hq
    dsimp only at hq
    split at hq
    · cases hq; rfl
    · split at hq
      · exact Option.noConfusion hq
      · cases hq; rfl

/-- Witness for `SkipBytes_past_window`: `SkipBytes(1)` at offset 1, level 2
with the source exhausted. -/
theorem SkipBytes_past_window_witness :
    SkipBytes eofState 1 = (if eofState.IsEOF then some (none, Clear eofState)
      else Read (Clear eofState)) ∧
    (Clear eofState).offset = 0 ∧ (Clear eofState).level = 0 ∧ (Clear eofState).window = [] ∧
    (Clear eofState).IsEOF = eofState.IsEOF ∧ (Clear eofState).reader = eofState.reader ∧
    (Clear eofState).buffer = eofState.buffer ∧
    ∀ e q, Read (Clear eofState) = some (e, q) →
      q.reader = (IoReader.Read eofState.reader 16384).2 :=
  SkipBytes_past_window eofState 1 (by decide)

/-! ## Buffered text -/

theorem bufferedState_window (w : List Byte) (eof : Bool) (r : ScriptReader)
    (h : w.length ≤ 16384) : (bufferedState w eof r).window = w := by
  apply List.ext_getElem?
  intro k
  show (Slice.bytes (store Storage.zero 0 16384 w) ⟨0, w.length⟩)[k]? = w[k]?
  rw [Slice.bytes_getElem?]
  by_cases hk : k < w.length
  · have h1 : 0 ≤ 0 + k ∧ 0 + k < 0 + min w.length 16384 := by omega
    rw [if_pos (by simpa using hk), store_get _ _ _ _ _ (by decide), if_pos h1]
    simp [List.getD_eq_getElem?_getD, List.getElem?_eq_getElem hk]
  · rw [if_neg (by simpa using hk), List.getElem?_eq_none (by omega)]

/-- `ApplyReader` on the zero value and a `Read` in which the source delivers
`w` give the state `bufferedState w`. -/
theorem Read_first_chunk (w : List Byte) (rest : List ReadResult) (h : w.length ≤ 16384) :
    Read (ApplyReader (NewReaderBuffered (⟨[]⟩ : ScriptReader)) ⟨⟨w, w.length, none⟩ :: rest⟩)
      = some (none, bufferedState w false ⟨rest⟩) := by
  rw [Read_ok _ (le_refl (0 : Int)) (show (0 : Int) ≤ buffersize by decide) (Or.inl rfl) (show (0 : Int) ≤ (w.length : Int) by omega)
    (show (0 : Int) + (w.length : Int) ≤ buffersize by rw [buffersize_eq]; omega)]
  simp [bufferedState, ApplyReader, NewReaderBuffered, IoReader.Read, buffersize]

/-! ## The streaming parser -/

theorem skipWitespacesLoop_eq_none (w : List Byte) : skipWitespacesLoop w = none := by
  induction w with
  | nil => rfl
  | cons c rest ih =>
    unfold skipWitespacesLoop
    split
    · exact ih
    · rfl

/-- With `skipWitespaces` always nil, `Parse` is the classification followed by
the callback. -/
theorem Parse_eq (p : StreamingParser ρ) (offset : Int) (data : BufferedReader ρ) :
    Parse p offset data =
      match getTypeStreamBody offset data.window with
      | none => none
      | some c =>
        match c.err with
        | some e => some ⟨some e, data, []⟩
        | none => some ⟨(p.Callback c.dataType data).1, (p.Callback c.dataType data).2,
            [c.dataType]⟩ := by
  unfold Parse skipWitespaces getTypeStream
  rw [skipWitespacesLoop_eq_none]
  cases getTypeStreamBody offset data.window with
  | none => rfl
  | some c =>
    cases c with
    | mk v t eo err =>
      cases err <;> rfl

/-- C4 (failing input). Source exhausted, window of three spaces (and the empty
window): `skipWitespaces` returns nil, never `io.EOF`, so `Parse` does not
return `MalformedJsonError`; it goes on to classify, which gives
`UnknownValueTypeError` on the space at `offset` (a panic when `offset` is
outside the window, as it is for every `offset` on the empty window). -/
theorem Parse_whitespace_only (p : StreamingParser ScriptReader) :
    (bufferedState [32, 32, 32] true ⟨[]⟩).IsEOF = true ∧
    (bufferedState [32, 32, 32] true ⟨[]⟩).window = [32, 32, 32] ∧
    skipWitespaces (bufferedState [32, 32, 32] true ⟨[]⟩) = none ∧
    Parse p 0 (bufferedState [32, 32, 32] true ⟨[]⟩) =
      some ⟨some Error.UnknownValueTypeError, bufferedState [32, 32, 32] true ⟨[]⟩, []⟩ ∧
    (∀ offset r, Parse p offset (bufferedState [32, 32, 32] true ⟨[]⟩) = some r →
      r.err = some Error.UnknownValueTypeError ∧ r.calls = []) ∧
    (bufferedState [] true ⟨[]⟩).window = [] ∧
    ∀ offset, Parse p offset (bufferedState [] true ⟨[]⟩) = none := by
  have hw := bufferedState_window [32, 32, 32] true ⟨[]⟩ (by decide)
  have hw0 := bufferedState_window [] true ⟨[]⟩ (by decide)
  refine ⟨rfl, hw, ?_, ?_, ?_, hw0, ?_⟩
  · unfold skipWitespaces; exact skipWitespacesLoop_eq_none _
  · rw [Parse_eq, hw]; rfl
  · intro offset r hr
    rw [Parse_eq, hw] at hr
    by_cases h : 0 ≤ offset ∧ offset < 3
    · have h3 : offset = 0 ∨ offset = 1 ∨ offset = 2 := by omega
      rcases h3 with rfl | rfl | rfl <;>
      · cases hr; exact ⟨rfl, rfl⟩
    · have hn : getTypeStreamBody offset [32, 32, 32] = none := by
        unfold getTypeStreamBody
        rw [if_neg (by simpa using h)]
      rw [hn] at hr
      exact Option.noConfusion hr
  · intro offset
    rw [Parse_eq, hw0]
    have hn : getTypeStreamBody offset [] = none := by
      unfold getTypeStreamBody
      rw [if_neg (by simp)]
    rw [hn]

/-- C5 (failing input). The window is a space followed by `"a"`.
`skipWitespaces` returns nil and nothing else, so no index reaches the
classifier: at offset 0 `Parse` classifies `"a"` alone as a String and calls
the callback, but fails with `UnknownValueTypeError` on the window with the
leading space; and there is no value of `offset` for which both windows are
classified as a String. -/
theorem Parse_leading_space_not_skipped (p : StreamingParser ScriptReader) :
    (bufferedState quotedA true ⟨[]⟩).window = quotedA ∧
    (bufferedState (32 :: quotedA) true ⟨[]⟩).window = 32 :: quotedA ∧
    skipWitespaces (bufferedState (32 :: quotedA) true ⟨[]⟩) = none ∧
    Parse p 0 (bufferedState quotedA true ⟨[]⟩) =
      some ⟨(p.Callback ValueType.String (bufferedState quotedA true ⟨[]⟩)).1,
        (p.Callback ValueType.String (bufferedState quotedA true ⟨[]⟩)).2, [ValueType.String]⟩ ∧
    Parse p 0 (bufferedState (32 :: quotedA) true ⟨[]⟩) =
      some ⟨some Error.UnknownValueTypeError, bufferedState (32 :: quotedA) true ⟨[]⟩, []⟩ ∧
    ∀ offset, ¬ (getTypeStream offset (bufferedState quotedA true ⟨[]⟩)
          = some (ValueType.String, none) ∧
        getTypeStream offset (bufferedState (32 :: quotedA) true ⟨[]⟩)
          = some (ValueType.String, none)) := by
  have hv := bufferedState_window quotedA true ⟨[]⟩ (by decide)
  have hwv := bufferedState_window (32 :: quotedA) true ⟨[]⟩ (by decide)
  refine ⟨hv, hwv, ?_, ?_, ?_, ?_⟩
  · unfold skipWitespaces; exact skipWitespacesLoop_eq_none _
  · rw [Parse_eq, hv]; rfl
  · rw [Parse_eq, hwv]; rfl
  · intro offset
    unfold getTypeStream
    rw [hv, hwv]
    by_cases h : 0 ≤ offset ∧ offset < 3
    · have h3 : offset = 0 ∨ offset = 1 ∨ offset = 2 := by omega
      rcases h3 with rfl | rfl | rfl <;> decide
    · have hn : getTypeStreamBody offset quotedA = none := by
        unfold getTypeStreamBody
        rw [if_neg (by simpa [quotedA] using h)]
      rw [hn]
      simp

/-- C6 (as stated, refuted). The input `"a"` delivered in one read, or cut
after its second byte: after the first read `Parse` returns nil and dispatches
a String in the first case; in the second it returns `MalformedStringError`
although the source is not exhausted, and leaves the buffer and the source as
they were (no compaction, no refill, no retry). -/
theorem Parse_outcome_depends_on_chunks :
    Read (ApplyReader (NewReaderBuffered (⟨[]⟩ : ScriptReader)) ⟨[⟨quotedA, 3, none⟩]⟩)
      = some (none, bufferedState quotedA false ⟨[]⟩) ∧
    Read (ApplyReader (NewReaderBuffered (⟨[]⟩ : ScriptReader))
        ⟨[⟨[34, 97], 2, none⟩, ⟨[34], 1, none⟩]⟩)
      = some (none, bufferedState [34, 97] false ⟨[⟨[34], 1, none⟩]⟩) ∧
    Parse okParser 0 (bufferedState quotedA false ⟨[]⟩)
      = some ⟨none, bufferedState quotedA false ⟨[]⟩, [ValueType.String]⟩ ∧
    (bufferedState [34, 97] false ⟨[⟨[34], 1, none⟩]⟩).IsEOF = false ∧
    Parse okParser 0 (bufferedState [34, 97] false ⟨[⟨[34], 1, none⟩]⟩)
      = some ⟨some Error.MalformedStringError,
          bufferedState [34, 97] false ⟨[⟨[34], 1, none⟩]⟩, []⟩ := by
  refine ⟨Read_first_chunk quotedA [] (by decide),
    Read_first_chunk [34, 97] [⟨[34], 1, none⟩] (by decide), ?_, rfl, ?_⟩
  · rw [Parse_eq, bufferedState_window _ _ _ (by decide)]; rfl
  · rw [Parse_eq, bufferedState_window _ _ _ (by decide)]; rfl

/-- C6 (amended). `Parse` scans the buffered window once: two buffers with the
same window get the same classification, whatever their source and `IsEOF`; an
error of the classifier is returned at once with the buffer unchanged, and a
type is dispatched at once. -/
theorem Parse_scans_buffered_window_only (p : StreamingParser ρ) (offset : Int)
    (d1 d2 : BufferedReader ρ) (hw : d1.window = d2.window) :
    getTypeStream offset d1 = getTypeStream offset d2 ∧
    (∀ t e, getTypeStream offset d1 = some (t, some e) →
      Parse p offset d1 = some ⟨some e, d1, []⟩ ∧ Parse p offset d2 = some ⟨some e, d2, []⟩) ∧
    (∀ t, getTypeStream offset d1 = some (t, none) →
      Parse p offset d1 = some ⟨(p.Callback t d1).1, (p.Callback t d1).2, [t]⟩ ∧
      Parse p offset d2 = some ⟨(p.Callback t d2).1, (p.Callback t d2).2, [t]⟩) := by
  have hg : getTypeStream offset d1 = getTypeStream offset d2 := by
    unfold getTypeStream; rw [hw]
  have key : ∀ d : BufferedReader ρ,
      (∀ t e, getTypeStream offset d = some (t, some e) →
        Parse p offset d = some ⟨some e, d, []⟩) ∧
      (∀ t, getTypeStream offset d = some (t, none) →
        Parse p offset d = some ⟨(p.Callback t d).1, (p.Callback t d).2, [t]⟩) := by
    intro d
    constructor
    · intro t e h
      unfold Parse skipWitespaces
      rw [skipWitespacesLoop_eq_none, h]
    · intro t h
      unfold Parse skipWitespaces
      rw [skipWitespacesLoop_eq_none, h]
  refine ⟨hg, fun t e h => ⟨(key d1).1 t e h, (key d2).1 t e (hg ▸ h)⟩,
    fun t h => ⟨(key d1).2 t h, (key d2).2 t (hg ▸ h)⟩⟩

/-- Witness for `Parse_scans_buffered_window_only`: the window `"a` with the
source not exhausted, and the same window with the source exhausted. -/
theorem Parse_scans_buffered_window_only_witness :
    Parse okParser 0 (bufferedState [34, 97] false ⟨[⟨[34], 1, none⟩]⟩)
      = some ⟨some Error.MalformedStringError,
          bufferedState [34, 97] false ⟨[⟨[34], 1, none⟩]⟩, []⟩ ∧
    Parse okParser 0 (bufferedState [34, 97] true ⟨[]⟩)
      = some ⟨some Error.MalformedStringError, bufferedState [34, 97] true ⟨[]⟩, []⟩ :=
  (Parse_scans_buffered_window_only okParser 0
    (bufferedState [34, 97] false ⟨[⟨[34], 1, none⟩]⟩) (bufferedState [34, 97] true ⟨[]⟩)
    (by rw [bufferedState_window _ _ _ (by decide), bufferedState_window _ _ _ (by decide)])).2.1
    ValueType.String Error.MalformedStringError
    (by unfold getTypeStream; rw [bufferedState_window _ _ _ (by decide)]; rfl)

/-- C7 (as stated, refuted). The window is `"a"` followed by a space, the
value has length 3, the callback returns nil and leaves the buffer alone:
`Parse` returns nil and the window still starts with the value; its first 3
bytes are not consumed. -/
theorem Parse_leaves_value_in_window :
    (bufferedState (quotedA ++ [32]) true ⟨[]⟩).window = quotedA ++ [32] ∧
    getTypeStreamBody 0 (quotedA ++ [32]) = some ⟨some quotedA, ValueType.String, 3, none⟩ ∧
    ∃ r, Parse okParser 0 (bufferedState (quotedA ++ [32]) true ⟨[]⟩) = some r ∧
      r.err = none ∧ r.calls = [ValueType.String] ∧ r.data.offset = 0 ∧
      r.data.window = quotedA ++ [32] ∧ r.data.window ≠ (quotedA ++ [32]).drop 3 := by
  have hw := bufferedState_window (quotedA ++ [32]) true ⟨[]⟩ (by decide)
  refine ⟨hw, rfl, ⟨none, bufferedState (quotedA ++ [32]) true ⟨[]⟩, [ValueType.String]⟩,
    ?_, rfl, rfl, rfl, hw, ?_⟩
  · rw [Parse_eq, hw]; rfl
  · show (bufferedState (quotedA ++ [32]) true ⟨[]⟩).window ≠ _
    rw [hw]; decide

/-- C7 (amended). `Parse` never moves the buffer itself: when the callback
leaves the buffer as it is, the buffer after `Parse`, whatever it returns, is
the buffer before it. -/
theorem Parse_does_not_advance (p : StreamingParser ρ) (offset : Int) (data : BufferedReader ρ)
    (hcb : ∀ t, (p.Callback t data).2 = data) (r : ParseResult ρ)
    (hr : Parse p offset data = some r) : r.data = data := by
  rw [Parse_eq] at hr
  cases hc : getTypeStreamBody offset data.window with
  | none => rw [hc] at hr; exact Option.noConfusion hr
  | some c =>
    rw [hc] at hr
    dsimp only at hr
    cases he : c.err with
    | none =>
      rw [he] at hr
      cases hr
      exact hcb _
    | some e =>
      rw [he] at hr
      cases hr
      rfl

/-- Witness for `Parse_does_not_advance`: the window `"a"` and a space. -/
theorem Parse_does_not_advance_witness :
    (⟨none, bufferedState (quotedA ++ [32]) true ⟨[]⟩, [ValueType.String]⟩ :
        ParseResult ScriptReader).data = bufferedState (quotedA ++ [32]) true ⟨[]⟩ ∧
    Parse okParser 0 (bufferedState (quotedA ++ [32]) true ⟨[]⟩) =
      some ⟨none, bufferedState (quotedA ++ [32]) true ⟨[]⟩, [ValueType.String]⟩ :=
  have h : Parse okParser 0 (bufferedState (quotedA ++ [32]) true ⟨[]⟩) =
      some ⟨none, bufferedState (quotedA ++ [32]) true ⟨[]⟩, [ValueType.String]⟩ := by
    rw [Parse_eq, bufferedState_window _ _ _ (by decide)]; rfl
  ⟨Parse_does_not_advance okParser 0 (bufferedState (quotedA ++ [32]) true ⟨[]⟩)
    (fun _ => rfl) _ h, h⟩

/-- Inside the window, the classifier returns (a type, or an error). -/
theorem getTypeStreamBody_returns (offset : Int) (w : List Byte)
    (h : 0 ≤ offset ∧ offset < w.length) : ∃ c, getTypeStreamBody offset w = some c := by
  unfold getTypeStreamBody
  rw [if_pos h]
  dsimp only
  split_ifs <;> exact ⟨_, rfl⟩

/-- C8 (as stated, refuted). The buffer right after `ApplyReader`, whose
window is empty: locating returns nil and classifying returns no error,
because `data[offset]` panics for every `offset`; `Parse` panics with it, so
the callback is not invoked, although nothing failed with an error. -/
theorem Parse_empty_window_panics :
    (ApplyReader (NewReaderBuffered (⟨[]⟩ : ScriptReader)) ⟨[]⟩).window = [] ∧
    skipWitespaces (ApplyReader (NewReaderBuffered (⟨[]⟩ : ScriptReader)) ⟨[]⟩) = none ∧
    getTypeStream 0 (ApplyReader (NewReaderBuffered (⟨[]⟩ : ScriptReader)) ⟨[]⟩) = none ∧
    Parse okParser 0 (ApplyReader (NewReaderBuffered (⟨[]⟩ : ScriptReader)) ⟨[]⟩) = none ∧
    (∀ offset e t, getTypeStream offset
      (ApplyReader (NewReaderBuffered (⟨[]⟩ : ScriptReader)) ⟨[]⟩) ≠ some (t, e)) ∧
    (∀ offset r, Parse okParser offset
      (ApplyReader (NewReaderBuffered (⟨[]⟩ : ScriptReader)) ⟨[]⟩) ≠ some r) := by
  have hw : (ApplyReader (NewReaderBuffered (⟨[]⟩ : ScriptReader)) ⟨[]⟩).window = [] := rfl
  have hbody : ∀ offset : Int, getTypeStreamBody offset [] = none := by
    intro offset
    unfold getTypeStreamBody
    rw [if_neg (by simp)]
  have hg : ∀ offset : Int, getTypeStream offset
      (ApplyReader (NewReaderBuffered (⟨[]⟩ : ScriptReader)) ⟨[]⟩) = none := by
    intro offset
    unfold getTypeStream
    rw [hw, hbody]
    rfl
  have hp : ∀ offset : Int, Parse okParser offset
      (ApplyReader (NewReaderBuffered (⟨[]⟩ : ScriptReader)) ⟨[]⟩) = none := by
    intro offset
    rw [Parse_eq, hw, hbody]
  refine ⟨hw, skipWitespacesLoop_eq_none _, hg 0, hp 0, ?_, ?_⟩
  · intro offset e t h
    rw [hg offset] at h
    exact Option.noConfusion h
  · intro offset r h
    rw [hp offset] at h
    exact Option.noConfusion h

/-- C8 (amended). Locating never fails (`skipWitespaces` returns nil). If
classifying fails with error `e`, `Parse` returns `e` with the buffer untouched
and no call of the callback; if it gives type `t`, `Parse` calls the callback
once, with `t`, and returns the callback's error (or nil) and the buffer as the
callback left it. Classifying returns one of the two exactly when `offset` lies
inside the window; otherwise (as on every empty window) it panics, and so does
`Parse`, without a call of the callback. -/
theorem Parse_callback_once (p : StreamingParser ρ) (offset : Int) (data : BufferedReader ρ) :
    skipWitespaces data = none ∧
    (∀ t e, getTypeStream offset data = some (t, some e) →
      Parse p offset data = some ⟨some e, data, []⟩) ∧
    (∀ t, getTypeStream offset data = some (t, none) →
      Parse p offset data = some ⟨(p.Callback t data).1, (p.Callback t data).2, [t]⟩) ∧
    (getTypeStream offset data = none → Parse p offset data = none) ∧
    (getTypeStream offset data = none ↔
      ¬ (0 ≤ offset ∧ offset < (data.window.length : Int))) := by
  have hs : skipWitespaces data = none := skipWitespacesLoop_eq_none _
  refine ⟨hs, ?_, ?_, ?_, ?_⟩
  · intro t e h
    unfold Parse
    rw [hs, h]
  · intro t h
    unfold Parse
    rw [hs, h]
  · intro h
    unfold Parse
    rw [hs, h]
  · unfold getTypeStream
    constructor
    · intro h hin
      obtain ⟨c, hc⟩ := getTypeStreamBody_returns offset data.window hin
      rw [hc] at h
      exact Option.noConfusion h
    · intro hout
      unfold getTypeStreamBody
      rw [if_neg hout]
      rfl

/-- Witness for `Parse_callback_once`: the window `"a` (classification fails),
the window `"a"` with a callback that returns an error of its own, and the
empty window (classification panics). -/
theorem Parse_callback_once_witness :
    Parse failParser 0 (bufferedState [34, 97] true ⟨[]⟩)
      = some ⟨some Error.MalformedStringError, bufferedState [34, 97] true ⟨[]⟩, []⟩ ∧
    Parse failParser 0 (bufferedState quotedA true ⟨[]⟩)
      = some ⟨some (Error.other 7), bufferedState quotedA true ⟨[]⟩, [ValueType.String]⟩ ∧
    Parse failParser 0 (bufferedState [] true ⟨[]⟩) = none :=
  ⟨(Parse_callback_once failParser 0 (bufferedState [34, 97] true ⟨[]⟩)).2.1
      ValueType.String Error.MalformedStringError
      (by unfold getTypeStream; rw [bufferedState_window _ _ _ (by decide)]; rfl),
    (Parse_callback_once failParser 0 (bufferedState quotedA true ⟨[]⟩)).2.2.1
      ValueType.String
      (by unfold getTypeStream; rw [bufferedState_window _ _ _ (by decide)]; rfl),
    (Parse_callback_once failParser 0 (bufferedState [] true ⟨[]⟩)).2.2.2.1
      (by unfold getTypeStream; rw [bufferedState_window _ _ _ (by decide)]; rfl)⟩

/-! ## `Read` -/

/-- C11. When the call of the source in `Read` (on `buffer[level:]`, so with
`0 <= level <= buffersize`) fails with an error other than `io.EOF`, `Read`
returns that error itself; `offset`, `level`, `IsEOF` and the slice `Bytes` are
as before, the storage below `level` is untouched, and so are the bytes the
window shows (the window ends at or before `level`). -/
theorem Read_source_error [IoReader ρ] (p : BufferedReader ρ) (e : Error)
    (h0 : 0 ≤ p.level) (h1 : p.level ≤ buffersize)
    (herr : (IoReader.Read p.reader (buffersize - p.level).toNat).1.err = some e)
    (hne : e ≠ Error.EOF) :
    ∃ q, Read p = some (some e, q) ∧ q.offset = p.offset ∧ q.level = p.level ∧
      q.IsEOF = p.IsEOF ∧ q.Bytes = p.Bytes ∧
      (∀ j, j < p.level.toNat → q.buffer.get j = p.buffer.get j) ∧
      (p.Bytes.hi ≤ p.level.toNat → q.window = p.window) := by
  have hb := buffersize_eq
  have hstore : ∀ j, j < p.level.toNat →
      (store p.buffer p.level.toNat (buffersize - p.level).toNat
        (IoReader.Read p.reader (buffersize - p.level).toNat).1.data).get j = p.buffer.get j := by
    intro j hj
    rw [store_get _ _ _ _ _ (by omega), if_neg (by omega)]
  refine ⟨_, Read_err p h0 h1 e herr hne, rfl, rfl, rfl, rfl, hstore, ?_⟩
  intro hhi
  apply Slice.bytes_eq_of_get _ _ _ _ rfl
  intro k hk
  have hk2 : k < p.Bytes.hi - p.Bytes.lo := hk
  exact hstore (p.Bytes.lo + k) (by omega)

/-- Witness for `Read_source_error`: the source stores `x` and fails; the
window stays `bc`. -/
theorem Read_source_error_witness :
    ∃ q, Read failingSourceState = some (some (Error.other 5), q) ∧
      q.offset = failingSourceState.offset ∧ q.level = failingSourceState.level ∧
      q.IsEOF = failingSourceState.IsEOF ∧ q.Bytes = failingSourceState.Bytes ∧
      (∀ j, j < failingSourceState.level.toNat →
        q.buffer.get j = failingSourceState.buffer.get j) ∧
      (failingSourceState.Bytes.hi ≤ failingSourceState.level.toNat →
        q.window = failingSourceState.window) :=
  Read_source_error failingSourceState (Error.other 5) (by decide) (by decide) rfl (by decide)

/-- C12. With `0 <= level <= buffersize`, when the source stores the bytes `d`
in the region, reports their number (at most `buffersize - level`) and returns
nil or `io.EOF`, `Read` returns nil; `storage[level..level+k)` holds `d`,
`level` has grown by `k`, `offset` and the storage outside
`[level, level+k)` are as before, and `IsEOF` is true exactly when the source
returned `io.EOF`. -/
theorem Read_delivers [IoReader ρ] (p : BufferedReader ρ) (d : List Byte)
    (h0 : 0 ≤ p.level) (h1 : p.level ≤ buffersize)
    (herr : (IoReader.Read p.reader (buffersize - p.level).toNat).1.err = none ∨
      (IoReader.Read p.reader (buffersize - p.level).toNat).1.err = some Error.EOF)
    (hd : (IoReader.Read p.reader (buffersize - p.level).toNat).1.data = d)
    (hn : (IoReader.Read p.reader (buffersize - p.level).toNat).1.n = d.length)
    (hk : (d.length : Int) ≤ buffersize - p.level) :
    ∃ q, Read p = some (none, q) ∧ q.level = p.level + d.length ∧ q.offset = p.offset ∧
      q.region p.level.toNat (p.level.toNat + d.length) = d ∧
      (∀ j, j < p.level.toNat → q.buffer.get j = p.buffer.get j) ∧
      (∀ j, p.level.toNat + d.length ≤ j → q.buffer.get j = p.buffer.get j) ∧
      (q.IsEOF = true ↔
        (IoReader.Read p.reader (buffersize - p.level).toNat).1.err = some Error.EOF) := by
  have hb := buffersize_eq
  have hread := Read_ok p h0 h1 herr (by rw [hn]; omega) (by rw [hn]; omega)
  have hstore : ∀ j,
      (store p.buffer p.level.toNat (buffersize - p.level).toNat
        (IoReader.Read p.reader (buffersize - p.level).toNat).1.data).get j =
      if p.level.toNat ≤ j ∧ j < p.level.toNat + d.length then d.getD (j - p.level.toNat) 0
      else p.buffer.get j := by
    intro j
    rw [store_get _ _ _ _ _ (by omega), hd]
    have : min d.length (buffersize - p.level).toNat = d.length := by omega
    rw [this]
  refine ⟨_, hread, by rw [hn], rfl, ?_, ?_, ?_, ?_⟩
  · apply List.ext_getElem?
    intro k
    show (Slice.bytes _ ⟨p.level.toNat, p.level.toNat + d.length⟩)[k]? = d[k]?
    rw [Slice.bytes_getElem?]
    dsimp only
    by_cases hkd : k < d.length
    · rw [if_pos (by omega), hstore, if_pos (by omega)]
      simp [List.getD_eq_getElem?_getD, List.getElem?_eq_getElem hkd]
    · rw [if_neg (by omega), List.getElem?_eq_none (by omega)]
  · intro j hj
    show (store _ _ _ _).get j = _
    rw [hstore, if_neg (by omega)]
  · intro j hj
    show (store _ _ _ _).get j = _
    rw [hstore, if_neg (by omega)]
  · show decide _ = true ↔ _
    simp

/-- Witness for `Read_delivers`: at level 3 the source delivers `d` with nil,
and at level 2 it delivers nothing with `io.EOF`. -/
theorem Read_delivers_witness :
    (∃ q, Read trimState = some (none, q) ∧ q.level = 4 ∧ q.offset = 1 ∧
      q.region 3 4 = [100] ∧ q.IsEOF = false) ∧
    (∃ q, Read midState = some (none, q) ∧ q.level = 2 ∧ q.offset = 1 ∧ q.IsEOF = true) := by
  obtain ⟨q, hq, hl, ho, hr, _, _, he⟩ :=
    Read_delivers trimState [100] (by decide) (by decide) (Or.inl rfl) rfl rfl (by decide)
  obtain ⟨q2, hq2, hl2, ho2, _, _, _, he2⟩ :=
    Read_delivers midState [] (by decide) (by decide) (Or.inr rfl) rfl rfl (by decide)
  refine ⟨⟨q, hq, hl, ho, hr, ?_⟩, ⟨q2, hq2, hl2, ho2, he2.2 rfl⟩⟩
  cases hq' : q.IsEOF with
  | false => rfl
  | true => exact absurd (he.1 hq') (by decide)

/-! ## The copy loop of `TrimPrefix` -/

/-- C20. With `0 <= offset <= level <= buffersize`, `skip >= 0` and
`offset + skip < level`, the copy loop of `TrimPrefix` passes every bounds
check and ends; afterwards `storage[i]` is the old `storage[offset+skip+i]` for
`i < buffersize - (offset+skip)`, and every cell from there on is unchanged. -/
theorem TrimPrefix_copy_exact (p : BufferedReader ρ) (skip : Int) (hinv : Inv p)
    (h0 : 0 ≤ skip) (hlt : p.offset + skip < p.level) :
    ∃ buf q, copyLoop (buffersize - (p.offset + skip)).toNat p.buffer 0 (p.offset + skip)
        = some buf ∧
      TrimPrefix p skip = some q ∧ q.buffer = buf ∧
      (∀ i, i < 16384 - (p.offset + skip).toNat →
        buf.get i = p.buffer.get ((p.offset + skip).toNat + i)) ∧
      (∀ i, 16384 - (p.offset + skip).toNat ≤ i → buf.get i = p.buffer.get i) := by
  obtain ⟨ho, hol, hl⟩ := hinv
  rw [buffersize_eq] at hl
  obtain ⟨out, hout, hget⟩ := copyLoop_spec (16384 - (p.offset + skip).toNat) p.buffer 0
    (p.offset + skip).toNat (by omega) (by omega)
  have hstart : (((p.offset + skip).toNat : Nat) : Int) = p.offset + skip := by omega
  have hfuel : (buffersize - (p.offset + skip)).toNat = 16384 - (p.offset + skip).toNat := by
    rw [buffersize_eq]; omega
  rw [hstart] at hout
  have hout2 : copyLoop (16384 - (p.offset + skip).toNat) p.buffer 0 (p.offset + skip)
      = some out := by simpa using hout
  obtain ⟨buf, htrim, hbuf⟩ := TrimPrefix_spec p skip ⟨ho, hol, by rw [buffersize_eq]; exact hl⟩
    h0 hlt
  have hsame : buf = out := by
    apply Storage.ext_get
    intro i _
    rw [hbuf i, hget i]
    simp
  refine ⟨out, _, by rw [hfuel]; exact hout2, htrim, hsame, ?_, ?_⟩
  · intro i hi
    rw [hget i, if_pos (by omega)]
    congr 1
    omega
  · intro i hi
    rw [hget i, if_neg (by omega)]

/-- Witness for `TrimPrefix_copy_exact`: `TrimPrefix(1)` at offset 1, level 3. -/
theorem TrimPrefix_copy_exact_witness :
    ∃ buf q, copyLoop (buffersize - (trimState.offset + 1)).toNat trimState.buffer 0
        (trimState.offset + 1) = some buf ∧
      TrimPrefix trimState 1 = some q ∧ q.buffer = buf ∧
      (∀ i, i < 16384 - (trimState.offset + 1).toNat →
        buf.get i = trimState.buffer.get ((trimState.offset + 1).toNat + i)) ∧
      (∀ i, 16384 - (trimState.offset + 1).toNat ≤ i → buf.get i = trimState.buffer.get i) :=
  TrimPrefix_copy_exact trimState 1 (by decide) (by decide) (by decide)

/-! ## The scanners -/

theorem stringEndFrom_quote (rest : List Byte) (i : Nat) :
    stringEndFrom (34 :: rest) i = (i : Int) + 1 := by
  unfold stringEndFrom; simp

theorem stringEndFrom_escape (x : Byte) (rest : List Byte) (i : Nat) :
    stringEndFrom (92 :: x :: rest) i = stringEndFrom rest (i + 2) := by
  rw [stringEndFrom.eq_def]; simp

theorem stringEndFrom_lone_backslash (i : Nat) : stringEndFrom [92] i = -1 := by
  unfold stringEndFrom; simp

theorem stringEndFrom_plain (c : Byte) (rest : List Byte) (i : Nat) (h1 : c ≠ 34)
    (h2 : c ≠ 92) : stringEndFrom (c :: rest) i = stringEndFrom rest (i + 1) := by
  rw [stringEndFrom.eq_def]; simp [h1, h2]

theorem stringEndFrom_body (b : List Byte) (hb : StringBody b) (rest : List Byte) (i : Nat) :
    stringEndFrom (b ++ 34 :: rest) i = (i : Int) + b.length + 1 := by
  induction hb generalizing i with
  | nil => rw [List.nil_append, stringEndFrom_quote]; simp
  | plain c r h1 h2 _ ih =>
    rw [List.cons_append, stringEndFrom_plain _ _ _ h1 h2, ih, List.length_cons]
    push_cast; ring
  | escape c r _ ih =>
    rw [List.cons_append, List.cons_append, stringEndFrom_escape, ih, List.length_cons,
      List.length_cons]
    push_cast; ring

theorem stringEnd_body (b : List Byte) (hb : StringBody b) (rest : List Byte) :
    stringEnd (b ++ 34 :: rest) = (b.length : Int) + 1 := by
  unfold stringEnd
  rw [stringEndFrom_body b hb rest 0]
  simp

/-- A result other than `-1` is one past a quote that ends a string body. -/
theorem stringEndFrom_found (n : Nat) : ∀ (w : List Byte) (i : Nat), w.length ≤ n →
    stringEndFrom w i ≠ -1 →
    ∃ b tail, StringBody b ∧ w = b ++ 34 :: tail ∧
      stringEndFrom w i = (i : Int) + b.length + 1 := by
  induction n with
  | zero =>
    intro w i hlen h
    have : w = [] := List.length_eq_zero.mp (by omega)
    subst this
    exact absurd rfl h
  | succ n ih =>
    intro w i hlen h
    cases w with
    | nil => exact absurd rfl h
    | cons c rest =>
      simp only [List.length_cons] at hlen
      by_cases hc : c = 34
      · subst hc
        exact ⟨[], rest, StringBody.nil, rfl, by rw [stringEndFrom_quote]; simp⟩
      · by_cases hc2 : c = 92
        · subst hc2
          cases rest with
          | nil => exact absurd (stringEndFrom_lone_backslash i) h
          | cons x rest2 =>
            have hlen2 : rest2.length + 2 ≤ n + 1 := by simpa using hlen
            have hrec : stringEndFrom (92 :: x :: rest2) i = stringEndFrom rest2 (i + 2) :=
              stringEndFrom_escape x rest2 i
            rw [hrec] at h ⊢
            obtain ⟨b, tail, hb, hw, hr⟩ := ih rest2 (i + 2) (by omega) h
            refine ⟨92 :: x :: b, tail, StringBody.escape x b hb, by rw [hw]; rfl, ?_⟩
            rw [hr]; simp only [List.length_cons]; push_cast; ring
        · have hrec : stringEndFrom (c :: rest) i = stringEndFrom rest (i + 1) :=
            stringEndFrom_plain c rest i hc hc2
          rw [hrec] at h ⊢
          obtain ⟨b, tail, hb, hw, hr⟩ := ih rest (i + 1) (by omega) h
          refine ⟨c :: b, tail, StringBody.plain c b hc hc2 hb, by rw [hw]; rfl, ?_⟩
          rw [hr]; simp only [List.length_cons]; push_cast; ring

/-- Without a quote that ends a string body, `stringEnd` asks for more input. -/
theorem stringEnd_unfinished (w : List Byte)
    (h : ∀ b tail, StringBody b → w ≠ b ++ 34 :: tail) : stringEnd w = -1 := by
  by_contra hne
  obtain ⟨b, tail, hb, hw, _⟩ := stringEndFrom_found w.length w 0 (le_refl _) hne
  exact h b tail hb hw

theorem stringEndFrom_ge (w : List Byte) (i : Nat) :
    stringEndFrom w i = -1 ∨ ((i : Int) < stringEndFrom w i ∧
      stringEndFrom w i ≤ (i : Int) + w.length) := by
  by_cases h : stringEndFrom w i = -1
  · exact Or.inl h
  · obtain ⟨b, tail, _, hw, hr⟩ := stringEndFrom_found w.length w i (le_refl _) h
    right
    rw [hr, hw]
    simp only [List.length_append, List.length_cons]
    push_cast
    omega

theorem tokenEndFrom_token (c : Byte) (rest : List Byte) (i : Nat)
    (hc : isTokenByte c = true) : tokenEndFrom (c :: rest) i = tokenEndFrom rest (i + 1) := by
  rw [tokenEndFrom.eq_def]; simp [hc]

theorem tokenEndFrom_stop (c : Byte) (rest : List Byte) (i : Nat)
    (hc : isTokenByte c = false) : tokenEndFrom (c :: rest) i = (i : Int) := by
  rw [tokenEndFrom.eq_def]; simp [hc]

theorem tokenEndFrom_delimited (tok : List Byte) (t : Byte) (rest : List Byte) (i : Nat)
    (htok : ∀ b ∈ tok, isTokenByte b = true) (ht : isTokenByte t = false) :
    tokenEndFrom (tok ++ t :: rest) i = (i : Int) + tok.length := by
  induction tok generalizing i with
  | nil => rw [List.nil_append, tokenEndFrom_stop _ _ _ ht]; simp
  | cons c r ih =>
    have hc : isTokenByte c = true := htok c (List.mem_cons_self _ _)
    rw [List.cons_append, tokenEndFrom_token _ _ _ hc,
      ih (i + 1) (fun b hb => htok b (List.mem_cons_of_mem _ hb)), List.length_cons]
    push_cast; ring

theorem tokenEnd_delimited (tok : List Byte) (t : Byte) (rest : List Byte)
    (htok : ∀ b ∈ tok, isTokenByte b = true) (ht : isTokenByte t = false) :
    tokenEnd (tok ++ t :: rest) = (tok.length : Int) := by
  unfold tokenEnd
  rw [tokenEndFrom_delimited tok t rest 0 htok ht]
  simp

theorem tokenEndFrom_unfinished (w : List Byte) (i : Nat)
    (h : ∀ b ∈ w, isTokenByte b = true) : tokenEndFrom w i = -1 := by
  induction w generalizing i with
  | nil => rfl
  | cons c r ih =>
    have hc : isTokenByte c = true := h c (List.mem_cons_self _ _)
    rw [tokenEndFrom_token _ _ _ hc]
    exact ih _ (fun b hb => h b (List.mem_cons_of_mem _ hb))

theorem tokenEnd_unfinished (w : List Byte) (h : ∀ b ∈ w, isTokenByte b = true) :
    tokenEnd w = -1 :=
  tokenEndFrom_unfinished w 0 h

theorem blockEndFrom_quote (o c : Byte) (fuel : Nat) (rest : List Byte) (i d : Nat) :
    blockEndFrom o c (fuel + 1) (34 :: rest) i d =
      if stringEnd rest = -1 then -1
      else blockEndFrom o c fuel (rest.drop (stringEnd rest).toNat)
        (i + 1 + (stringEnd rest).toNat) d := by
  rw [blockEndFrom]; simp

theorem blockEndFrom_open (o c : Byte) (fuel : Nat) (rest : List Byte) (i d : Nat)
    (ho : o ≠ 34) :
    blockEndFrom o c (fuel + 1) (o :: rest) i d = blockEndFrom o c fuel rest (i + 1) (d + 1) := by
  rw [blockEndFrom]; simp [ho]

theorem blockEndFrom_close (o c : Byte) (fuel : Nat) (rest : List Byte) (i d : Nat)
    (hc : c ≠ 34) (hoc : c ≠ o) :
    blockEndFrom o c (fuel + 1) (c :: rest) i d =
      if d - 1 = 0 then (i : Int) + 1 else blockEndFrom o c fuel rest (i + 1) (d - 1) := by
  rw [blockEndFrom]; simp [hc, hoc]

theorem blockEndFrom_plain (o c : Byte) (fuel : Nat) (x : Byte) (rest : List Byte) (i d : Nat)
    (h1 : x ≠ 34) (h2 : x ≠ o) (h3 : x ≠ c) :
    blockEndFrom o c (fuel + 1) (x :: rest) i d = blockEndFrom o c fuel rest (i + 1) d := by
  rw [blockEndFrom]; simp [h1, h2, h3]

/-- The scan passes over balanced bytes without a change of the depth. -/
theorem blockEndFrom_balanced (o c : Byte) (ho : o ≠ 34) (hc : c ≠ 34) (hoc : c ≠ o)
    (a : List Byte) (ha : Balanced o c a) :
    ∀ (s : List Byte) (i d fuel : Nat), 1 ≤ d → (a ++ s).length ≤ fuel →
      ∃ fuel2, s.length ≤ fuel2 ∧
        blockEndFrom o c fuel (a ++ s) i d = blockEndFrom o c fuel2 s (i + a.length) d := by
  induction ha with
  | nil => intro s i d fuel _ hf; exact ⟨fuel, by simpa using hf, by simp⟩
  | plain x l h1 h2 h3 _ ih =>
    intro s i d fuel hd hf
    simp only [List.cons_append, List.length_cons] at hf
    obtain ⟨k, rfl⟩ : ∃ k, fuel = k + 1 := ⟨fuel - 1, by omega⟩
    obtain ⟨f2, hf2, he⟩ := ih s (i + 1) d k hd (by omega)
    refine ⟨f2, hf2, ?_⟩
    rw [List.cons_append, blockEndFrom_plain _ _ _ _ _ _ _ h1 h2 h3, he, List.length_cons]
    congr 1; omega
  | str b l hb _ ih =>
    intro s i d fuel hd hf
    simp only [List.cons_append, List.append_assoc, List.length_cons, List.length_append] at hf
    obtain ⟨k, rfl⟩ : ∃ k, fuel = k + 1 := ⟨fuel - 1, by omega⟩
    obtain ⟨f2, hf2, he⟩ := ih s (i + 1 + (b.length + 1)) d k hd
      (by simp only [List.length_append]; omega)
    refine ⟨f2, hf2, ?_⟩
    have hse : stringEnd (b ++ 34 :: (l ++ s)) = (b.length : Int) + 1 := stringEnd_body b hb _
    have hdrop : (b ++ 34 :: (l ++ s)).drop (b.length + 1) = l ++ s := by
      rw [show b ++ 34 :: (l ++ s) = (b ++ [34]) ++ (l ++ s) by simp]
      exact List.drop_left' (by simp)
    have hnat : ((b.length : Int) + 1).toNat = b.length + 1 := by omega
    rw [show (34 :: b ++ 34 :: l) ++ s = 34 :: (b ++ 34 :: (l ++ s)) by simp,
      blockEndFrom_quote, hse, if_neg (by omega), hnat, hdrop, he]
    congr 1
    simp only [List.length_cons, List.length_append]
    omega
  | nest a l _ _ iha ihl =>
    intro s i d fuel hd hf
    simp only [List.cons_append, List.append_assoc, List.length_cons, List.length_append] at hf
    obtain ⟨k, rfl⟩ : ∃ k, fuel = k + 1 := ⟨fuel - 1, by omega⟩
    obtain ⟨f1, hf1, he1⟩ := iha (c :: (l ++ s)) (i + 1) (d + 1) k (by omega)
      (by simp only [List.length_append, List.length_cons]; omega)
    simp only [List.length_cons, List.length_append] at hf1
    obtain ⟨k1, rfl⟩ : ∃ k1, f1 = k1 + 1 := ⟨f1 - 1, by omega⟩
    obtain ⟨f2, hf2, he2⟩ := ihl s (i + 1 + a.length + 1) d k1 hd
      (by simp only [List.length_append]; omega)
    refine ⟨f2, hf2, ?_⟩
    rw [show (o :: a ++ c :: l) ++ s = o :: (a ++ c :: (l ++ s)) by simp,
      blockEndFrom_open _ _ _ _ _ _ ho, he1, blockEndFrom_close _ _ _ _ _ _ hc hoc,
      if_neg (by omega), show d + 1 - 1 = d by omega, he2]
    congr 1
    simp only [List.length_cons, List.length_append]
    omega

/-- On a block `o a c` with balanced `a`, `blockEnd` is the length of the
block: the end offset one past its closing bracket. -/
theorem blockEnd_balanced (o c : Byte) (ho : o ≠ 34) (hc : c ≠ 34) (hoc : c ≠ o)
    (a : List Byte) (ha : Balanced o c a) (rest : List Byte) :
    blockEnd (o :: a ++ c :: rest) o c = (a.length : Int) + 2 := by
  unfold blockEnd
  obtain ⟨f2, hf2, he⟩ := blockEndFrom_balanced o c ho hc hoc a ha (c :: rest) 1 1
    (o :: a ++ c :: rest).length (le_refl 1) (by simp)
  simp only [List.length_cons] at hf2
  obtain ⟨k, rfl⟩ : ∃ k, f2 = k + 1 := ⟨f2 - 1, by omega⟩
  rw [show (o :: a ++ c :: rest).drop 1 = a ++ c :: rest by simp, he,
    blockEndFrom_close _ _ _ _ _ _ hc hoc, if_pos (by omega)]
  push_cast; ring

/-- A result other than `-1` means that the scanned bytes close the `d` open
brackets. -/
theorem blockEndFrom_found (o c : Byte) (fuel : Nat) :
    ∀ (l : List Byte) (i d : Nat), 1 ≤ d → blockEndFrom o c fuel l i d ≠ -1 →
      Closes o c d l := by
  induction fuel with
  | zero => intro l i d _ h; exact absurd (by rw [blockEndFrom]) h
  | succ k ih =>
    intro l i d hd h
    cases l with
    | nil => exact absurd (by rw [blockEndFrom]) h
    | cons x rest =>
      by_cases hx : x = 34
      · subst hx
        rw [blockEndFrom_quote] at h
        by_cases hse : stringEnd rest = -1
        · rw [if_pos hse] at h; exact absurd rfl h
        · rw [if_neg hse] at h
          obtain ⟨b, tail, hb, hw, hr⟩ := stringEndFrom_found rest.length rest 0 (le_refl _) hse
          have hval : stringEnd rest = (b.length : Int) + 1 := by
            unfold stringEnd; rw [hr]; simp
          have hnat : (stringEnd rest).toNat = b.length + 1 := by omega
          have hdrop : rest.drop (b.length + 1) = tail := by
            rw [hw, show b ++ 34 :: tail = (b ++ [34]) ++ tail by simp]
            exact List.drop_left' (by simp)
          rw [hnat, hdrop] at h
          have hcl := ih tail _ d hd h
          obtain ⟨d2, rfl⟩ : ∃ d2, d = d2 + 1 := ⟨d - 1, by omega⟩
          cases hcl with
          | level _ a l2 ha hl2 =>
            rw [hw, show 34 :: (b ++ 34 :: (a ++ c :: l2)) = (34 :: b ++ 34 :: a) ++ c :: l2 by simp]
            exact Closes.level d2 _ l2 (Balanced.str b a hb ha) hl2
      · by_cases hxo : x = o
        · subst hxo
          rw [blockEndFrom_open _ _ _ _ _ _ hx] at h
          have hcl := ih rest _ (d + 1) (by omega) h
          cases hcl with
          | level _ a1 l1 ha1 hl1 =>
            obtain ⟨d2, rfl⟩ : ∃ d2, d = d2 + 1 := ⟨d - 1, by omega⟩
            cases hl1 with
            | level _ a2 l2 ha2 hl2 =>
              rw [show x :: (a1 ++ c :: (a2 ++ c :: l2)) = (x :: a1 ++ c :: a2) ++ c :: l2 by simp]
              exact Closes.level d2 _ l2 (Balanced.nest a1 a2 ha1 ha2) hl2
        · by_cases hxc : x = c
          · subst hxc
            rw [blockEndFrom_close _ _ _ _ _ _ hx hxo] at h
            obtain ⟨d2, rfl⟩ : ∃ d2, d = d2 + 1 := ⟨d - 1, by omega⟩
            by_cases hd0 : d2 = 0
            · subst hd0
              exact Closes.level 0 [] rest Balanced.nil (Closes.done rest)
            · rw [if_neg (by omega)] at h
              have hcl := ih rest _ (d2 + 1 - 1) (by omega) h
              rw [show d2 + 1 - 1 = d2 by omega] at hcl
              exact Closes.level d2 [] rest Balanced.nil hcl
          · rw [blockEndFrom_plain _ _ _ _ _ _ _ hx hxo hxc] at h
            have hcl := ih rest _ d hd h
            obtain ⟨d2, rfl⟩ : ∃ d2, d = d2 + 1 := ⟨d - 1, by omega⟩
            cases hcl with
            | level _ a l2 ha hl2 =>
              rw [show x :: (a ++ c :: l2) = (x :: a) ++ c :: l2 by simp]
              exact Closes.level d2 _ l2 (Balanced.plain x a hx hxo hxc ha) hl2

/-- When no balanced run of bytes followed by a closing bracket starts the
bytes after the opening bracket, `blockEnd` asks for more input. -/
theorem blockEnd_unfinished (o c : Byte) (x : Byte) (l : List Byte)
    (h : ∀ a rest, Balanced o c a → l ≠ a ++ c :: rest) : blockEnd (x :: l) o c = -1 := by
  by_contra hne
  unfold blockEnd at hne
  rw [show (x :: l).drop 1 = l by simp] at hne
  have hcl := blockEndFrom_found o c _ l 1 1 (le_refl 1) hne
  cases hcl with
  | level _ a rest ha _ => exact h a rest ha rfl

/-! ## The classifier at a value that starts at `offset` -/

theorem subslice_at (pre v rest : List Byte) :
    subslice (pre ++ v ++ rest) pre.length ((pre.length : Int) + v.length) = v := by
  unfold subslice
  have h1 : ((pre.length : Int) + v.length).toNat = (pre ++ v).length := by
    simp only [List.length_append]; omega
  have h2 : ((pre.length : Int)).toNat = pre.length := by omega
  rw [h1, h2, List.take_left', List.drop_left']
  · rfl
  · rfl

theorem window_at (pre : List Byte) (x : Byte) (tl : List Byte) :
    (0 ≤ (pre.length : Int) ∧ (pre.length : Int) < ((pre ++ x :: tl).length : Int)) ∧
    (pre ++ x :: tl).getD (pre.length : Int).toNat 0 = x ∧
    (pre ++ x :: tl).drop (pre.length : Int).toNat = x :: tl ∧
    (pre ++ x :: tl).drop ((pre.length : Int) + 1).toNat = tl := by
  have h2 : ((pre.length : Int)).toNat = pre.length := by omega
  have h3 : ((pre.length : Int) + 1).toNat = pre.length + 1 := by omega
  refine ⟨⟨by omega, by simp only [List.length_append, List.length_cons]; omega⟩, ?_, ?_, ?_⟩
  · rw [h2, List.getD_eq_getElem?_getD, List.getElem?_append_right (le_refl _)]
    simp
  · rw [h2, List.drop_left']
    rfl
  · rw [h3, show pre ++ x :: tl = (pre ++ [x]) ++ tl by simp, List.drop_left']
    simp

theorem getTypeStreamBody_string (pre tl : List Byte) :
    getTypeStreamBody pre.length (pre ++ 34 :: tl) =
      if stringEnd tl ≠ -1 then
        some ⟨some (subslice (pre ++ 34 :: tl) pre.length (pre.length + (stringEnd tl + 1))),
          ValueType.String, pre.length + (stringEnd tl + 1), none⟩
      else some ⟨none, ValueType.String, pre.length, some Error.MalformedStringError⟩ := by
  obtain ⟨h1, h2, _, h4⟩ := window_at pre 34 tl
  unfold getTypeStreamBody
  rw [if_pos h1]
  simp only [h2, h4, if_true]

theorem getTypeStreamBody_block (pre tl : List Byte) (o c : Byte) (t : ValueType) (e : Error)
    (h : (o = 91 ∧ c = 93 ∧ t = ValueType.Array ∧ e = Error.MalformedArrayError) ∨
      (o = 123 ∧ c = 125 ∧ t = ValueType.Object ∧ e = Error.MalformedObjectError)) :
    getTypeStreamBody pre.length (pre ++ o :: tl) =
      if blockEnd (o :: tl) o c = -1 then some ⟨none, t, pre.length, some e⟩
      else some ⟨some (subslice (pre ++ o :: tl) pre.length (blockEnd (o :: tl) o c + pre.length)),
        t, blockEnd (o :: tl) o c + pre.length, none⟩ := by
  obtain ⟨h1, h2, h3, _⟩ := window_at pre o tl
  unfold getTypeStreamBody
  rw [if_pos h1]
  rcases h with ⟨rfl, rfl, rfl, rfl⟩ | ⟨rfl, rfl, rfl, rfl⟩
  · simp only [h2, h3]
    simp
  · simp only [h2, h3]
    simp

theorem getTypeStreamBody_token (pre tl : List Byte) (x : Byte) (h1 : x ≠ 34) (h2 : x ≠ 91)
    (h3 : x ≠ 123) :
    getTypeStreamBody pre.length (pre ++ x :: tl) =
      if tokenEnd (x :: tl) = -1 then
        some ⟨none, zeroValueType, pre.length, some Error.MalformedValueError⟩
      else if x = 116 ∨ x = 102 then
        if subslice (pre ++ x :: tl) pre.length (pre.length + tokenEnd (x :: tl)) = trueLiteral ∨
            subslice (pre ++ x :: tl) pre.length (pre.length + tokenEnd (x :: tl)) = falseLiteral
        then some ⟨some (subslice (pre ++ x :: tl) pre.length (pre.length + tokenEnd (x :: tl))),
          ValueType.Boolean, pre.length + tokenEnd (x :: tl), none⟩
        else some ⟨none, ValueType.Unknown, pre.length, some Error.UnknownValueTypeError⟩
      else if x = 117 ∨ x = 110 then
        if subslice (pre ++ x :: tl) pre.length (pre.length + tokenEnd (x :: tl)) = nullLiteral
        then some ⟨some (subslice (pre ++ x :: tl) pre.length (pre.length + tokenEnd (x :: tl))),
          ValueType.Null, pre.length + tokenEnd (x :: tl), none⟩
        else some ⟨none, ValueType.Unknown, pre.length, some Error.UnknownValueTypeError⟩
      else if (48 ≤ x ∧ x ≤ 57) ∨ x = 45 then
        some ⟨some (subslice (pre ++ x :: tl) pre.length (pre.length + tokenEnd (x :: tl))),
          ValueType.Number, pre.length + tokenEnd (x :: tl), none⟩
      else some ⟨none, ValueType.Unknown, pre.length, some Error.UnknownValueTypeError⟩ := by
  obtain ⟨hr, hc, hd, _⟩ := window_at pre x tl
  unfold getTypeStreamBody
  rw [if_pos hr]
  simp only [hc, hd, h1, h2, h3, if_false]

/-- The classifier on a window whose bare token `tok` at `offset` is delimited
by the byte `t`: the token is validated by its first byte `x`. -/
theorem getTypeStreamBody_delimited (pre tok rest : List Byte) (t x : Nat) (tl : List Byte)
    (htok : ∀ b ∈ tok, isTokenByte b = true) (ht : isTokenByte t = false)
    (hx : tok ++ t :: rest = x :: tl) (h1 : x ≠ 34) (h2 : x ≠ 91) (h3 : x ≠ 123) :
    getTypeStreamBody pre.length (pre ++ tok ++ t :: rest) =
      if x = 116 ∨ x = 102 then
        if tok = trueLiteral ∨ tok = falseLiteral then
          some ⟨some tok, ValueType.Boolean, pre.length + tok.length, none⟩
        else some ⟨none, ValueType.Unknown, pre.length, some Error.UnknownValueTypeError⟩
      else if x = 117 ∨ x = 110 then
        if tok = nullLiteral then some ⟨some tok, ValueType.Null, pre.length + tok.length, none⟩
        else some ⟨none, ValueType.Unknown, pre.length, some Error.UnknownValueTypeError⟩
      else if (48 ≤ x ∧ x ≤ 57) ∨ x = 45 then
        some ⟨some tok, ValueType.Number, pre.length + tok.length, none⟩
      else some ⟨none, ValueType.Unknown, pre.length, some Error.UnknownValueTypeError⟩ := by
  have hte : tokenEnd (x :: tl) = (tok.length : Int) := by
    rw [← hx]; exact tokenEnd_delimited tok t rest htok ht
  have hsub : subslice (pre ++ x :: tl) pre.length (pre.length + (tok.length : Int)) = tok := by
    rw [← hx, show pre ++ (tok ++ t :: rest) = pre ++ tok ++ t :: rest by simp]
    exact subslice_at pre tok (t :: rest)
  rw [show pre ++ tok ++ t :: rest = pre ++ x :: tl by rw [← hx]; simp,
    getTypeStreamBody_token pre tl x h1 h2 h3, hte, if_neg (by omega), hsub]

/-- C13 (as stated, refuted). The window `trux`, and the window `x`: the
window ends inside the bare token, and the classifier returns
`MalformedValueError`, not `UnknownValueTypeError`. -/
theorem classify_trux_alone :
    getTypeStreamBody 0 [116, 114, 117, 120]
      = some ⟨none, ValueType.NotExist, 0, some Error.MalformedValueError⟩ ∧
    getTypeStream 0 (bufferedState [116, 114, 117, 120] true ⟨[]⟩)
      = some (ValueType.NotExist, some Error.MalformedValueError) ∧
    getTypeStreamBody 0 [120]
      = some ⟨none, ValueType.NotExist, 0, some Error.MalformedValueError⟩ := by
  refine ⟨by decide, ?_, by decide⟩
  unfold getTypeStream
  rw [bufferedState_window _ _ _ (by decide)]
  decide

/-- C13 (amended). On a window whose bare token at `offset` is delimited (the
token bytes `tok`, possibly none, then a byte `t` outside the token set), the
classifier fails with `UnknownValueTypeError` when the first byte is none of
`"`, `[`, `{`, `t`, `f`, `n`, `-` or a digit, and when it is `t`, `f` or `n`
and the token is not exactly `true`, `false` or `null`. -/
theorem classify_unknown (pre tok rest : List Byte) (t x : Nat) (tl : List Byte)
    (htok : ∀ b ∈ tok, isTokenByte b = true) (ht : isTokenByte t = false)
    (hx : tok ++ t :: rest = x :: tl) :
    (x ≠ 34 → x ≠ 91 → x ≠ 123 → x ≠ 116 → x ≠ 102 → x ≠ 110 → x ≠ 45 →
      ¬ (48 ≤ x ∧ x ≤ 57) →
      getTypeStreamBody pre.length (pre ++ tok ++ t :: rest)
        = some ⟨none, ValueType.Unknown, pre.length, some Error.UnknownValueTypeError⟩) ∧
    (x = 116 ∨ x = 102 ∨ x = 110 → tok ≠ trueLiteral → tok ≠ falseLiteral → tok ≠ nullLiteral →
      getTypeStreamBody pre.length (pre ++ tok ++ t :: rest)
        = some ⟨none, ValueType.Unknown, pre.length, some Error.UnknownValueTypeError⟩) := by
  constructor
  · intro h1 h2 h3 h4 h5 h6 h7 h8
    rw [getTypeStreamBody_delimited pre tok rest t x tl htok ht hx h1 h2 h3]
    have hn : ¬ (x = 117 ∨ x = 110) ∨ tok ≠ nullLiteral := by
      by_cases hu : x = 117
      · right
        intro hnull
        rw [hnull] at hx
        have h110 : (110 : Nat) = x := (List.cons.inj hx).1
        omega
      · left; omega
    rcases hn with hn | hn
    · rw [if_neg (by omega), if_neg hn, if_neg (by omega)]
    · rw [if_neg (by omega)]
      by_cases hu : x = 117 ∨ x = 110
      · rw [if_pos hu, if_neg hn]
      · rw [if_neg hu, if_neg (by omega)]
  · intro hx3 ht1 ht2 ht3
    have h1 : x ≠ 34 := by omega
    have h2 : x ≠ 91 := by omega
    have h3 : x ≠ 123 := by omega
    rw [getTypeStreamBody_delimited pre tok rest t x tl htok ht hx h1 h2 h3]
    by_cases htf : x = 116 ∨ x = 102
    · rw [if_pos htf, if_neg (by simp [ht1, ht2])]
    · rw [if_neg htf, if_pos (by omega), if_neg ht3]

/-- Witness for `classify_unknown`: the windows `@ ` and `trux `. -/
theorem classify_unknown_witness :
    getTypeStreamBody 0 [64, 32]
      = some ⟨none, ValueType.Unknown, 0, some Error.UnknownValueTypeError⟩ ∧
    getTypeStreamBody 0 [116, 114, 117, 120, 32]
      = some ⟨none, ValueType.Unknown, 0, some Error.UnknownValueTypeError⟩ :=
  ⟨(classify_unknown [] [] [32] 64 64 [32] (by decide) (by decide) rfl).1
      (by decide) (by decide) (by decide) (by decide) (by decide) (by decide) (by decide)
      (by decide),
    (classify_unknown [] [116, 114, 117, 120] [] 32 116 [114, 117, 120, 32] (by decide)
      (by decide) rfl).2 (by decide) (by decide) (by decide) (by decide)⟩

/-- C14. Whatever `IsEOF` says, an unfinished value at `offset` gets the error
of its kind: after `"`, bytes without a quote that ends a string body give
`MalformedStringError`; after `[` (`{`), bytes of which no balanced run is
followed by `]` (`}`), so that the depth never returns to 0, give
`MalformedArrayError` (`MalformedObjectError`); and a bare token that runs to
the end of the window gives `MalformedValueError`. -/
theorem classify_unfinished (pre tl : List Byte) :
    ((∀ b tail, StringBody b → tl ≠ b ++ 34 :: tail) →
      getTypeStreamBody pre.length (pre ++ 34 :: tl)
        = some ⟨none, ValueType.String, pre.length, some Error.MalformedStringError⟩) ∧
    ((∀ a rest, Balanced 91 93 a → tl ≠ a ++ 93 :: rest) →
      getTypeStreamBody pre.length (pre ++ 91 :: tl)
        = some ⟨none, ValueType.Array, pre.length, some Error.MalformedArrayError⟩) ∧
    ((∀ a rest, Balanced 123 125 a → tl ≠ a ++ 125 :: rest) →
      getTypeStreamBody pre.length (pre ++ 123 :: tl)
        = some ⟨none, ValueType.Object, pre.length, some Error.MalformedObjectError⟩) ∧
    (∀ x : Nat, x ≠ 34 → x ≠ 91 → x ≠ 123 → (∀ b ∈ x :: tl, isTokenByte b = true) →
      getTypeStreamBody pre.length (pre ++ x :: tl)
        = some ⟨none, zeroValueType, pre.length, some Error.MalformedValueError⟩) := by
  refine ⟨fun h => ?_, fun h => ?_, fun h => ?_, fun x h1 h2 h3 h => ?_⟩
  · rw [getTypeStreamBody_string, stringEnd_unfinished tl h]
    simp
  · rw [getTypeStreamBody_block pre tl 91 93 ValueType.Array Error.MalformedArrayError
      (Or.inl ⟨rfl, rfl, rfl, rfl⟩), blockEnd_unfinished 91 93 91 tl h, if_pos rfl]
  · rw [getTypeStreamBody_block pre tl 123 125 ValueType.Object Error.MalformedObjectError
      (Or.inr ⟨rfl, rfl, rfl, rfl⟩), blockEnd_unfinished 123 125 123 tl h, if_pos rfl]
  · rw [getTypeStreamBody_token pre tl x h1 h2 h3, tokenEnd_unfinished _ h, if_pos rfl]

theorem no_split_of_not_mem (tl : List Byte) (q : Byte) (h : q ∉ tl) (b tail : List Byte) :
    tl ≠ b ++ q :: tail := by
  intro he
  exact h (by rw [he]; simp)

/-- Witness for `classify_unfinished`: the windows `"unterminated`, `[1,2`,
`{"a"` and `tru`. -/
theorem classify_unfinished_witness :
    getTypeStreamBody 0 [34, 117, 110, 116, 101, 114, 109, 105, 110, 97, 116, 101, 100]
      = some ⟨none, ValueType.String, 0, some Error.MalformedStringError⟩ ∧
    getTypeStreamBody 0 [91, 49, 44, 50]
      = some ⟨none, ValueType.Array, 0, some Error.MalformedArrayError⟩ ∧
    getTypeStreamBody 0 [123, 34, 97, 34]
      = some ⟨none, ValueType.Object, 0, some Error.MalformedObjectError⟩ ∧
    getTypeStreamBody 0 [116, 114, 117]
      = some ⟨none, zeroValueType, 0, some Error.MalformedValueError⟩ :=
  ⟨(classify_unfinished [] [117, 110, 116, 101, 114, 109, 105, 110, 97, 116, 101, 100]).1
      (fun b tail _ => no_split_of_not_mem _ 34 (by decide) b tail),
    (classify_unfinished [] [49, 44, 50]).2.1
      (fun a rest _ => no_split_of_not_mem _ 93 (by decide) a rest),
    (classify_unfinished [] [34, 97, 34]).2.2.1
      (fun a rest _ => no_split_of_not_mem _ 125 (by decide) a rest),
    (classify_unfinished [] [114, 117]).2.2.2 116 (by decide) (by decide) (by decide)
      (by decide)⟩

/-- C16. On a window whose bare token at `offset` is delimited by a byte `t`
outside the token set: the token `true` or `false` gives Boolean and the token
`null` gives Null, with no error, the token as the value, and the end offset at
the terminator, 4, 5 and 4 bytes after the start of the value. -/
theorem classify_literal (pre rest : List Byte) (t : Nat) (ht : isTokenByte t = false) :
    getTypeStreamBody pre.length (pre ++ trueLiteral ++ t :: rest)
      = some ⟨some trueLiteral, ValueType.Boolean, pre.length + 4, none⟩ ∧
    getTypeStreamBody pre.length (pre ++ falseLiteral ++ t :: rest)
      = some ⟨some falseLiteral, ValueType.Boolean, pre.length + 5, none⟩ ∧
    getTypeStreamBody pre.length (pre ++ nullLiteral ++ t :: rest)
      = some ⟨some nullLiteral, ValueType.Null, pre.length + 4, none⟩ ∧
    tokenEnd (trueLiteral ++ t :: rest) = 4 ∧ tokenEnd (falseLiteral ++ t :: rest) = 5 ∧
    tokenEnd (nullLiteral ++ t :: rest) = 4 := by
  refine ⟨?_, ?_, ?_, tokenEnd_delimited trueLiteral t rest (by decide) ht,
    tokenEnd_delimited falseLiteral t rest (by decide) ht,
    tokenEnd_delimited nullLiteral t rest (by decide) ht⟩
  · rw [getTypeStreamBody_delimited pre trueLiteral rest t 116 ([114, 117, 101] ++ t :: rest)
      (by decide) ht (by rfl) (by decide) (by decide) (by decide)]
    simp [trueLiteral]
  · rw [getTypeStreamBody_delimited pre falseLiteral rest t 102
      ([97, 108, 115, 101] ++ t :: rest) (by decide) ht (by rfl) (by decide) (by decide) (by decide)]
    simp [falseLiteral]
  · rw [getTypeStreamBody_delimited pre nullLiteral rest t 110 ([117, 108, 108] ++ t :: rest)
      (by decide) ht (by rfl) (by decide) (by decide) (by decide)]
    simp [nullLiteral]

/-- Witness for `classify_literal`: the literals followed by a comma, after
one space. -/
theorem classify_literal_witness :
    getTypeStreamBody 1 [32, 116, 114, 117, 101, 44]
      = some ⟨some trueLiteral, ValueType.Boolean, 5, none⟩ ∧
    getTypeStreamBody 1 [32, 102, 97, 108, 115, 101, 44]
      = some ⟨some falseLiteral, ValueType.Boolean, 6, none⟩ ∧
    getTypeStreamBody 1 [32, 110, 117, 108, 108, 44]
      = some ⟨some nullLiteral, ValueType.Null, 5, none⟩ :=
  have h := classify_literal [32] [] 44 (by decide)
  ⟨h.1, h.2.1, h.2.2.1⟩

/-- C17. On a window whose first byte at `offset` is a digit or `-` and whose
bare token is delimited by a byte `t` outside the token set, the classifier
returns Number with the whole token as the value and the end offset at the
terminator, whatever token bytes follow the first one. -/
theorem classify_number (pre tok rest : List Byte) (c t : Nat)
    (hc : (48 ≤ c ∧ c ≤ 57) ∨ c = 45) (htok : ∀ b ∈ tok, isTokenByte b = true)
    (ht : isTokenByte t = false) :
    getTypeStreamBody pre.length (pre ++ (c :: tok) ++ t :: rest)
      = some ⟨some (c :: tok), ValueType.Number, pre.length + (tok.length + 1), none⟩ ∧
    tokenEnd ((c :: tok) ++ t :: rest) = (tok.length : Int) + 1 := by
  have hct : isTokenByte c = true := by
    unfold isTokenByte
    rcases hc with ⟨h1, h2⟩ | h
    · simp [h1, h2]
    · simp [h]
  have hall : ∀ b ∈ c :: tok, isTokenByte b = true := by
    intro b hb
    rcases List.mem_cons.mp hb with rfl | hb
    · exact hct
    · exact htok b hb
  refine ⟨?_, ?_⟩
  · rw [getTypeStreamBody_delimited pre (c :: tok) rest t c (tok ++ t :: rest) hall ht rfl
      (by omega) (by omega) (by omega), if_neg (by omega), if_neg (by omega), if_pos hc]
    simp
  · rw [tokenEnd_delimited (c :: tok) t rest hall ht]
    simp

/-- Witness for `classify_number`: the window `1.2.3 `. -/
theorem classify_number_witness :
    getTypeStreamBody 0 [49, 46, 50, 46, 51, 32]
      = some ⟨some [49, 46, 50, 46, 51], ValueType.Number, 5, none⟩ ∧
    tokenEnd [49, 46, 50, 46, 51, 32] = 5 :=
  classify_number [] [46, 50, 46, 51] [] 49 32 (by decide) (by decide) (by decide)

/-- C18. When the bytes after the opening quote are a string body `b` (every
quote in it escaped) and then a quote, `stringEnd` stops at that quote and at
no quote before it: the result is `b.length + 1`, the end offset one past the
closing quote at index `b.length`; so the classifier delimits the whole literal,
quotes included. -/
theorem stringEnd_closing_quote (pre b rest : List Byte) (hb : StringBody b) :
    stringEnd (b ++ 34 :: rest) = (b.length : Int) + 1 ∧
    (b ++ 34 :: rest).getD b.length 0 = 34 ∧
    getTypeStreamBody pre.length (pre ++ (34 :: b ++ [34]) ++ rest)
      = some ⟨some (34 :: b ++ [34]), ValueType.String, pre.length + (b.length + 2), none⟩ := by
  have hse := stringEnd_body b hb rest
  refine ⟨hse, ?_, ?_⟩
  · rw [List.getD_eq_getElem?_getD, List.getElem?_append_right (le_refl _)]
    simp
  · have hsub := subslice_at pre (34 :: b ++ [34]) rest
    rw [show pre ++ (34 :: b ++ [34]) ++ rest = pre ++ 34 :: (b ++ 34 :: rest) by simp] at hsub ⊢
    rw [getTypeStreamBody_string, hse, if_pos (by omega)]
    have he : (pre.length : Int) + ((b.length : Int) + 1 + 1)
        = (pre.length : Int) + ((34 :: b ++ [34]).length : Nat) := by
      simp only [List.length_cons, List.length_append, List.length_nil]
      push_cast; ring
    rw [he, hsub]
    congr 2
    simp only [List.length_cons, List.length_append, List.length_nil]
    push_cast; ring

/-- Witness for `stringEnd_closing_quote`: the literal `"a\"b"`, whose body
holds an escaped quote at index 2; the closing quote is at index 4. -/
theorem stringEnd_closing_quote_witness :
    stringEnd [97, 92, 34, 98, 34] = 5 ∧
    [97, 92, 34, 98, 34].getD 4 0 = 34 ∧
    getTypeStreamBody 0 [34, 97, 92, 34, 98, 34]
      = some ⟨some [34, 97, 92, 34, 98, 34], ValueType.String, 6, none⟩ :=
  stringEnd_closing_quote [] [97, 92, 34, 98] []
    (StringBody.plain 97 _ (by decide) (by decide)
      (StringBody.escape 34 _ (StringBody.plain 98 _ (by decide) (by decide) StringBody.nil)))

/-! ## Well-formed values are balanced -/

theorem Balanced_of_plain (o c : Nat) (l : List Byte)
    (h : ∀ b : Nat, b ∈ l → b ≠ 34 ∧ b ≠ o ∧ b ≠ c) : Balanced o c l := by
  induction l with
  | nil => exact Balanced.nil
  | cons x r ih =>
    obtain ⟨h1, h2, h3⟩ := h x (List.mem_cons_self _ _)
    exact Balanced.plain x r h1 h2 h3 (ih (fun b hb => h b (List.mem_cons_of_mem _ hb)))

theorem Balanced_append (o c : Nat) (a b : List Byte) (ha : Balanced o c a)
    (hb : Balanced o c b) : Balanced o c (a ++ b) := by
  induction ha with
  | nil => exact hb
  | plain x l h1 h2 h3 _ ih => exact Balanced.plain x _ h1 h2 h3 ih
  | str s l hs _ ih =>
    rw [show (34 :: s ++ 34 :: l) ++ b = 34 :: s ++ 34 :: (l ++ b) by simp]
    exact Balanced.str s _ hs ih
  | nest a1 l _ _ _ ih =>
    rw [show (o :: a1 ++ c :: l) ++ b = o :: a1 ++ c :: (l ++ b) by simp]
    exact Balanced.nest a1 _ (by assumption) ih

theorem IsWs_balanced (o c : Nat) (hp : (o = 91 ∧ c = 93) ∨ (o = 123 ∧ c = 125))
    (ws : List Byte) (h : IsWs ws) : Balanced o c ws :=
  Balanced_of_plain o c ws (fun b hb => by have := h b hb; omega)

theorem IsNumber_balanced (o c : Nat) (hp : (o = 91 ∧ c = 93) ∨ (o = 123 ∧ c = 125))
    (n : List Byte) (h : IsNumber n) : Balanced o c n := by
  obtain ⟨x, tl, rfl, hx, htl⟩ := h
  apply Balanced_of_plain
  intro b hb
  rcases List.mem_cons.mp hb with rfl | hb
  · omega
  · have := htl b hb; omega

theorem Balanced_single (o c x : Nat) (h1 : x ≠ 34) (h2 : x ≠ o) (h3 : x ≠ c) :
    Balanced o c [x] :=
  Balanced.plain x [] h1 h2 h3 Balanced.nil

theorem Balanced_literal (o c : Nat) (hp : (o = 91 ∧ c = 93) ∨ (o = 123 ∧ c = 125)) :
    Balanced o c trueLiteral ∧ Balanced o c falseLiteral ∧ Balanced o c nullLiteral := by
  have key : ∀ l : List Byte, (∀ b : Nat, b ∈ l → 97 ≤ b ∧ b ≤ 122) → Balanced o c l :=
    fun l h => Balanced_of_plain o c l (fun b hb => by have := h b hb; omega)
  exact ⟨key _ (by decide), key _ (by decide), key _ (by decide)⟩

/-- A block of either bracket pair, seen by the scan for the pair `o`, `c`. -/
theorem Balanced_block (o c : Nat) (hp : (o = 91 ∧ c = 93) ∨ (o = 123 ∧ c = 125))
    (o2 c2 : Nat) (hp2 : (o2 = 91 ∧ c2 = 93) ∨ (o2 = 123 ∧ c2 = 125)) (a : List Byte)
    (ha : Balanced o c a) : Balanced o c (o2 :: a ++ [c2]) := by
  by_cases hsame : o2 = o
  · have hc : c2 = c := by omega
    subst hsame; subst hc
    exact Balanced.nest a [] ha Balanced.nil
  · have h1 : Balanced o c [c2] := Balanced_single o c c2 (by omega) (by omega) (by omega)
    have h2 : Balanced o c [o2] := Balanced_single o c o2 (by omega) (by omega) (by omega)
    exact Balanced_append o c [o2] _ h2 (Balanced_append o c a _ ha h1)

theorem Balanced_quoted (o c : Nat) (b : List Byte) (hb : StringBody b) :
    Balanced o c (34 :: b ++ [34]) :=
  Balanced.str b [] hb Balanced.nil

theorem Json_balanced (o c : Nat) (hp : (o = 91 ∧ c = 93) ∨ (o = 123 ∧ c = 125))
    (k : JsonKind) (l : List Byte) (h : Json k l) : Balanced o c l := by
  have hcomma : Balanced o c [44] := Balanced_single o c 44 (by omega) (by omega) (by omega)
  have hcolon : Balanced o c [58] := Balanced_single o c 58 (by omega) (by omega) (by omega)
  induction h with
  | string b hb => exact Balanced_quoted o c b hb
  | number n hn => exact IsNumber_balanced o c hp n hn
  | litTrue => exact (Balanced_literal o c hp).1
  | litFalse => exact (Balanced_literal o c hp).2.1
  | litNull => exact (Balanced_literal o c hp).2.2
  | emptyArray ws hws =>
    exact Balanced_block o c hp 91 93 (Or.inl ⟨rfl, rfl⟩) ws (IsWs_balanced o c hp ws hws)
  | array es _ ih => exact Balanced_block o c hp 91 93 (Or.inl ⟨rfl, rfl⟩) es ih
  | emptyObject ws hws =>
    exact Balanced_block o c hp 123 125 (Or.inr ⟨rfl, rfl⟩) ws (IsWs_balanced o c hp ws hws)
  | object ms _ ih => exact Balanced_block o c hp 123 125 (Or.inr ⟨rfl, rfl⟩) ms ih
  | element w1 v w2 h1 _ h2 ih =>
    exact Balanced_append o c _ _ (Balanced_append o c _ _ (IsWs_balanced o c hp w1 h1) ih)
      (IsWs_balanced o c hp w2 h2)
  | elementCons w1 v w2 es h1 _ h2 _ ihv ihes =>
    exact Balanced_append o c _ _
      (Balanced_append o c _ _ (Balanced_append o c _ _ (IsWs_balanced o c hp w1 h1) ihv)
        (IsWs_balanced o c hp w2 h2))
      (Balanced_append o c [44] es hcomma ihes)
  | member w1 k w2 w3 v w4 h1 hk h2 h3 _ h4 ihv =>
    have hkey : Balanced o c (34 :: k ++ 34 :: w2) :=
      Balanced.str k w2 hk (IsWs_balanced o c hp w2 h2)
    have h58 : Balanced o c (58 :: w3) :=
      Balanced_append o c [58] w3 hcolon (IsWs_balanced o c hp w3 h3)
    have e : w1 ++ 34 :: k ++ 34 :: w2 ++ 58 :: w3 ++ v ++ w4
        = w1 ++ ((34 :: k ++ 34 :: w2) ++ ((58 :: w3) ++ (v ++ w4))) := by simp
    rw [e]
    exact Balanced_append o c _ _ (IsWs_balanced o c hp w1 h1)
      (Balanced_append o c _ _ hkey
        (Balanced_append o c _ _ h58
          (Balanced_append o c _ _ ihv (IsWs_balanced o c hp w4 h4))))
  | memberCons w1 k w2 w3 v w4 ms h1 hk h2 h3 _ h4 _ ihv ihms =>
    have hkey : Balanced o c (34 :: k ++ 34 :: w2) :=
      Balanced.str k w2 hk (IsWs_balanced o c hp w2 h2)
    have h58 : Balanced o c (58 :: w3) :=
      Balanced_append o c [58] w3 hcolon (IsWs_balanced o c hp w3 h3)
    have e : w1 ++ 34 :: k ++ 34 :: w2 ++ 58 :: w3 ++ v ++ w4 ++ 44 :: ms
        = w1 ++ ((34 :: k ++ 34 :: w2) ++ ((58 :: w3) ++ (v ++ (w4 ++ ([44] ++ ms))))) := by
      simp
    rw [e]
    exact Balanced_append o c _ _ (IsWs_balanced o c hp w1 h1)
      (Balanced_append o c _ _ hkey
        (Balanced_append o c _ _ h58
          (Balanced_append o c _ _ ihv
            (Balanced_append o c _ _ (IsWs_balanced o c hp w4 h4)
              (Balanced_append o c _ _ hcomma ihms)))))

/-! ## The classifier on well-formed values -/

theorem classify_string_literal (pre b rest : List Byte) (hb : StringBody b) :
    getTypeStreamBody pre.length (pre ++ (34 :: b ++ [34]) ++ rest)
      = some ⟨some (34 :: b ++ [34]), ValueType.String,
          pre.length + ((34 :: b ++ [34]).length : Nat), none⟩ := by
  have hse := stringEnd_body b hb rest
  have hsub := subslice_at pre (34 :: b ++ [34]) rest
  rw [show pre ++ (34 :: b ++ [34]) ++ rest = pre ++ 34 :: (b ++ 34 :: rest) by simp] at hsub ⊢
  rw [getTypeStreamBody_string, hse, if_pos (by omega)]
  have he : (pre.length : Int) + ((b.length : Int) + 1 + 1)
      = (pre.length : Int) + ((34 :: b ++ [34]).length : Nat) := by
    simp only [List.length_cons, List.length_append, List.length_nil]
    push_cast; ring
  rw [he, hsub]

theorem blockEnd_block (o c : Nat) (hp : (o = 91 ∧ c = 93) ∨ (o = 123 ∧ c = 125))
    (a rest : List Byte) (ha : Balanced o c a) :
    blockEnd ((o :: a ++ [c]) ++ rest) o c = ((o :: a ++ [c]).length : Nat) := by
  have h1 : o ≠ 34 := by omega
  have h2 : c ≠ 34 := by omega
  have h3 : c ≠ o := by omega
  rw [show (o :: a ++ [c]) ++ rest = o :: a ++ c :: rest by simp,
    blockEnd_balanced o c h1 h2 h3 a ha rest]
  simp only [List.length_cons, List.length_append, List.length_nil]
  push_cast; ring

theorem classify_block (pre a rest : List Byte) (o c : Nat) (t : ValueType) (e : Error)
    (h : (o = 91 ∧ c = 93 ∧ t = ValueType.Array ∧ e = Error.MalformedArrayError) ∨
      (o = 123 ∧ c = 125 ∧ t = ValueType.Object ∧ e = Error.MalformedObjectError))
    (ha : Balanced o c a) :
    getTypeStreamBody pre.length (pre ++ (o :: a ++ [c]) ++ rest)
      = some ⟨some (o :: a ++ [c]), t, pre.length + ((o :: a ++ [c]).length : Nat), none⟩ := by
  have hp : (o = 91 ∧ c = 93) ∨ (o = 123 ∧ c = 125) := by omega
  have hbe := blockEnd_block o c hp a rest ha
  have hsub := subslice_at pre (o :: a ++ [c]) rest
  rw [show (o :: a ++ [c]) ++ rest = o :: (a ++ c :: rest) by simp] at hbe
  rw [show pre ++ (o :: a ++ [c]) ++ rest = pre ++ o :: (a ++ c :: rest) by simp] at hsub ⊢
  rw [getTypeStreamBody_block pre _ o c t e h, hbe, if_neg (by omega),
    show (((o :: a ++ [c]).length : Nat) : Int) + (pre.length : Int)
      = (pre.length : Int) + ((o :: a ++ [c]).length : Nat) by ring, hsub]

theorem IsWs_not_token (t : Nat) (h : t = 32 ∨ t = 9 ∨ t = 10 ∨ t = 13) :
    isTokenByte t = false := by
  rcases h with rfl | rfl | rfl | rfl <;> decide

theorem IsNumber_token (c : Nat) (tl : List Byte) (hc : (48 ≤ c ∧ c ≤ 57) ∨ c = 45)
    (htl : ∀ b : Nat, b ∈ tl → (48 ≤ b ∧ b ≤ 57) ∨ b = 46 ∨ b = 43 ∨ b = 45 ∨ b = 101 ∨ b = 69) :
    ∀ b ∈ c :: tl, isTokenByte b = true := by
  have key : ∀ b : Nat, ((48 ≤ b ∧ b ≤ 57) ∨ b = 46 ∨ b = 43 ∨ b = 45 ∨ b = 101 ∨ b = 69) →
      isTokenByte b = true := by
    intro b hb
    unfold isTokenByte
    rcases hb with ⟨h1, h2⟩ | rfl | rfl | rfl | rfl | rfl
    · simp [h1, h2]
    all_goals decide
  intro b hb
  rcases List.mem_cons.mp hb with rfl | hb
  · exact key _ (by omega)
  · exact key _ (htl b hb)

theorem kindOfFirstByte_number (c : Nat) (hc : (48 ≤ c ∧ c ≤ 57) ∨ c = 45) :
    kindOfFirstByte c = ValueType.Number := by
  have h1 : c ≠ 34 := by omega
  have h2 : c ≠ 91 := by omega
  have h3 : c ≠ 123 := by omega
  have h4 : ¬ (c = 116 ∨ c = 102) := by omega
  have h5 : c ≠ 110 := by omega
  unfold kindOfFirstByte
  rw [if_neg h1, if_neg h2, if_neg h3, if_neg h4, if_neg h5]

/-- C15. A window that holds, from `offset` on, one well-formed JSON value
`v` and then whitespace `ws`: the classifier succeeds with the type of `v`,
the bytes of `v` as the value, and the end offset `v.length` bytes after the
start of the value. A string, an array or an object needs no byte after it; a
bare token needs the whitespace to be there. -/
theorem classify_wellformed (pre v ws : List Byte) (hv : Json JsonKind.value v)
    (hws : IsWs ws)
    (hne : ws ≠ [] ∨ v.headD 0 = 34 ∨ v.headD 0 = 91 ∨ v.headD 0 = 123) :
    getTypeStreamBody pre.length (pre ++ v ++ ws)
      = some ⟨some v, kindOfFirstByte (v.headD 0), pre.length + (v.length : Nat), none⟩ := by
  -- a bare token is followed by a whitespace byte
  have htok : ∀ (x : Nat) (tl : List Byte), v = x :: tl → x ≠ 34 → x ≠ 91 → x ≠ 123 →
      (∀ b ∈ x :: tl, isTokenByte b = true) →
      getTypeStreamBody pre.length (pre ++ v ++ ws) =
        if x = 116 ∨ x = 102 then
          if v = trueLiteral ∨ v = falseLiteral then
            some ⟨some v, ValueType.Boolean, pre.length + v.length, none⟩
          else some ⟨none, ValueType.Unknown, pre.length, some Error.UnknownValueTypeError⟩
        else if x = 117 ∨ x = 110 then
          if v = nullLiteral then some ⟨some v, ValueType.Null, pre.length + v.length, none⟩
          else some ⟨none, ValueType.Unknown, pre.length, some Error.UnknownValueTypeError⟩
        else if (48 ≤ x ∧ x ≤ 57) ∨ x = 45 then
          some ⟨some v, ValueType.Number, pre.length + v.length, none⟩
        else some ⟨none, ValueType.Unknown, pre.length, some Error.UnknownValueTypeError⟩ := by
    intro x tl hvx h1 h2 h3 hall
    have hhead : v.headD 0 = x := by rw [hvx]; rfl
    have hws2 : ws ≠ [] := by
      rcases hne with h | h | h | h
      · exact h
      · rw [hhead] at h; exact absurd h h1
      · rw [hhead] at h; exact absurd h h2
      · rw [hhead] at h; exact absurd h h3
    obtain ⟨t, ws2, rfl⟩ : ∃ t ws2, ws = t :: ws2 := by
      cases ws with
      | nil => exact absurd rfl hws2
      | cons t ws2 => exact ⟨t, ws2, rfl⟩
    have ht : isTokenByte t = false := IsWs_not_token t (hws t (List.mem_cons_self _ _))
    exact getTypeStreamBody_delimited pre v ws2 t x (tl ++ t :: ws2) (by rw [hvx]; exact hall) ht
      (by rw [hvx]; rfl) h1 h2 h3
  cases hv with
  | string b hb => exact classify_string_literal pre b ws hb
  | number n hn =>
    obtain ⟨c, tl, rfl, hc, htl⟩ := hn
    rw [htok c tl rfl (by omega) (by omega) (by omega) (IsNumber_token c tl hc htl),
      if_neg (by omega), if_neg (by omega), if_pos hc]
    rw [show (c :: tl).headD 0 = c from rfl, kindOfFirstByte_number c hc]
  | litTrue =>
    rw [htok 116 [114, 117, 101] rfl (by decide) (by decide) (by decide) (by decide),
      if_pos (Or.inl rfl), if_pos (Or.inl rfl)]
    rfl
  | litFalse =>
    rw [htok 102 [97, 108, 115, 101] rfl (by decide) (by decide) (by decide) (by decide),
      if_pos (Or.inr rfl), if_pos (Or.inr rfl)]
    rfl
  | litNull =>
    rw [htok 110 [117, 108, 108] rfl (by decide) (by decide) (by decide) (by decide),
      if_neg (by decide), if_pos (Or.inr rfl), if_pos rfl]
    rfl
  | emptyArray a ha =>
    exact classify_block pre a ws 91 93 _ _ (Or.inl ⟨rfl, rfl, rfl, rfl⟩)
      (IsWs_balanced 91 93 (Or.inl ⟨rfl, rfl⟩) a ha)
  | array es hes =>
    exact classify_block pre es ws 91 93 _ _ (Or.inl ⟨rfl, rfl, rfl, rfl⟩)
      (Json_balanced 91 93 (Or.inl ⟨rfl, rfl⟩) _ es hes)
  | emptyObject a ha =>
    exact classify_block pre a ws 123 125 _ _ (Or.inr ⟨rfl, rfl, rfl, rfl⟩)
      (IsWs_balanced 123 125 (Or.inr ⟨rfl, rfl⟩) a ha)
  | object ms hms =>
    exact classify_block pre ms ws 123 125 _ _ (Or.inr ⟨rfl, rfl, rfl, rfl⟩)
      (Json_balanced 123 125 (Or.inr ⟨rfl, rfl⟩) _ ms hms)

theorem StringBody_of_plain (l : List Byte) (h : ∀ b : Nat, b ∈ l → b ≠ 34 ∧ b ≠ 92) :
    StringBody l := by
  induction l with
  | nil => exact StringBody.nil
  | cons x r ih =>
    exact StringBody.plain x r (h x (List.mem_cons_self _ _)).1 (h x (List.mem_cons_self _ _)).2
      (ih (fun b hb => h b (List.mem_cons_of_mem _ hb)))

theorem IsWs_nil : IsWs [] := fun _ hb => absurd hb (List.not_mem_nil _)

theorem IsNumber_digit (c : Nat) (h : 48 ≤ c ∧ c ≤ 57) : IsNumber [c] :=
  ⟨c, [], rfl, Or.inl h, fun _ hb => absurd hb (List.not_mem_nil _)⟩

/-- Witness for `classify_wellformed`: the inputs `"hello"`, `[1,2,3]` and
`{"a":true}` with nothing after them, and `12` followed by a space. -/
theorem classify_wellformed_witness :
    getTypeStreamBody 0 [34, 104, 101, 108, 108, 111, 34]
      = some ⟨some [34, 104, 101, 108, 108, 111, 34], ValueType.String, 7, none⟩ ∧
    getTypeStreamBody 0 [91, 49, 44, 50, 44, 51, 93]
      = some ⟨some [91, 49, 44, 50, 44, 51, 93], ValueType.Array, 7, none⟩ ∧
    getTypeStreamBody 0 [123, 34, 97, 34, 58, 116, 114, 117, 101, 125]
      = some ⟨some [123, 34, 97, 34, 58, 116, 114, 117, 101, 125], ValueType.Object, 10, none⟩ ∧
    getTypeStreamBody 0 [49, 50, 32]
      = some ⟨some [49, 50], ValueType.Number, 2, none⟩ :=
  ⟨classify_wellformed [] [34, 104, 101, 108, 108, 111, 34] []
      (Json.string [104, 101, 108, 108, 111] (StringBody_of_plain _ (by decide)))
      IsWs_nil (Or.inr (Or.inl rfl)),
    classify_wellformed [] [91, 49, 44, 50, 44, 51, 93] []
      (Json.array [49, 44, 50, 44, 51]
        (Json.elementCons [] [49] [] [50, 44, 51] IsWs_nil
          (Json.number _ (IsNumber_digit 49 (by decide))) IsWs_nil
          (Json.elementCons [] [50] [] [51] IsWs_nil
            (Json.number _ (IsNumber_digit 50 (by decide))) IsWs_nil
            (Json.element [] [51] [] IsWs_nil
              (Json.number _ (IsNumber_digit 51 (by decide))) IsWs_nil))))
      IsWs_nil (Or.inr (Or.inr (Or.inl rfl))),
    classify_wellformed [] [123, 34, 97, 34, 58, 116, 114, 117, 101, 125] []
      (Json.object [34, 97, 34, 58, 116, 114, 117, 101]
        (Json.member [] [97] [] [] trueLiteral [] IsWs_nil
          (StringBody_of_plain _ (by decide)) IsWs_nil IsWs_nil Json.litTrue IsWs_nil))
      IsWs_nil (Or.inr (Or.inr (Or.inr rfl))),
    classify_wellformed [] [49, 50] [32]
      (Json.number _ ⟨49, [50], rfl, by decide, by decide⟩)
      (fun b hb => by simp at hb; omega) (Or.inl (by decide))⟩

/-- C19. For a well-formed array (object) `v`, whatever its string literals
hold, `blockEnd` on a window that starts with `v` is the length of `v`: the end
offset one past the last byte of `v`, which is the bracket that closes the
outermost block; so the classifier delimits the whole block. -/
theorem blockEnd_closing_bracket (pre v rest : List Byte) (hv : Json JsonKind.value v)
    (o c : Nat) (t : ValueType)
    (hp : (o = 91 ∧ c = 93 ∧ t = ValueType.Array) ∨ (o = 123 ∧ c = 125 ∧ t = ValueType.Object))
    (hhead : v.headD 0 = o) :
    blockEnd (v ++ rest) o c = (v.length : Nat) ∧ v.getLast? = some c ∧
    getTypeStreamBody pre.length (pre ++ v ++ rest)
      = some ⟨some v, t, pre.length + (v.length : Nat), none⟩ := by
  have hpair : (o = 91 ∧ c = 93) ∨ (o = 123 ∧ c = 125) := by omega
  have key : ∀ (o2 c2 : Nat) (a : List Byte), ((o2 = 91 ∧ c2 = 93) ∨ (o2 = 123 ∧ c2 = 125)) →
      v = o2 :: a ++ [c2] → Balanced o c a →
      blockEnd (v ++ rest) o c = (v.length : Nat) ∧ v.getLast? = some c ∧
      getTypeStreamBody pre.length (pre ++ v ++ rest)
        = some ⟨some v, t, pre.length + (v.length : Nat), none⟩ := by
    intro o2 c2 a hp2 hva ha
    have ho : o2 = o := by rw [hva] at hhead; exact hhead
    have hc : c2 = c := by omega
    subst ho; subst hc
    rw [hva]
    refine ⟨blockEnd_block o2 c2 hpair a rest ha, List.getLast?_concat (o2 :: a), ?_⟩
    rcases hp with ⟨h1, h2, h3⟩ | ⟨h1, h2, h3⟩
    · exact classify_block pre a rest o2 c2 t Error.MalformedArrayError
        (Or.inl ⟨h1, h2, h3, rfl⟩) ha
    · exact classify_block pre a rest o2 c2 t Error.MalformedObjectError
        (Or.inr ⟨h1, h2, h3, rfl⟩) ha
  cases hv with
  | string b hb =>
    have : (34 : Nat) = o := hhead
    omega
  | number n hn =>
    obtain ⟨x, tl, rfl, hx, _⟩ := hn
    have : x = o := hhead
    omega
  | litTrue =>
    have : (116 : Nat) = o := hhead
    omega
  | litFalse =>
    have : (102 : Nat) = o := hhead
    omega
  | litNull =>
    have : (110 : Nat) = o := hhead
    omega
  | emptyArray a ha =>
    exact key 91 93 a (Or.inl ⟨rfl, rfl⟩) rfl (IsWs_balanced o c hpair a ha)
  | array es hes =>
    exact key 91 93 es (Or.inl ⟨rfl, rfl⟩) rfl (Json_balanced o c hpair _ es hes)
  | emptyObject a ha =>
    exact key 123 125 a (Or.inr ⟨rfl, rfl⟩) rfl (IsWs_balanced o c hpair a ha)
  | object ms hms =>
    exact key 123 125 ms (Or.inr ⟨rfl, rfl⟩) rfl (Json_balanced o c hpair _ ms hms)

/-- Witness for `blockEnd_closing_bracket`: the object `{"k":"[}"}` followed by
a comma; the string holds a bracket and a brace, and the closing brace is the
byte at index 9. -/
theorem blockEnd_closing_bracket_witness :
    blockEnd [123, 34, 107, 34, 58, 34, 91, 125, 34, 125, 44] 123 125 = 10 ∧
    [123, 34, 107, 34, 58, 34, 91, 125, 34, 125].getLast? = some 125 ∧
    getTypeStreamBody 0 [123, 34, 107, 34, 58, 34, 91, 125, 34, 125, 44]
      = some ⟨some [123, 34, 107, 34, 58, 34, 91, 125, 34, 125], ValueType.Object, 10, none⟩ :=
  blockEnd_closing_bracket [] [123, 34, 107, 34, 58, 34, 91, 125, 34, 125] [44]
    (Json.object [34, 107, 34, 58, 34, 91, 125, 34]
      (Json.member [] [107] [] [] [34, 91, 125, 34] [] IsWs_nil
        (StringBody_of_plain _ (by decide)) IsWs_nil IsWs_nil
        (Json.string [91, 125] (StringBody_of_plain _ (by decide))) IsWs_nil))
    123 125 ValueType.Object (Or.inr ⟨rfl, rfl, rfl⟩) rfl

end Stream
